import Mathlib

/-!
# TGA decoder (`tga.hpp`): a shallow embedding and its verification

The development follows `src/tga.hpp`.  Storage is modelled as follows.

* A byte is a `Fin 256`; every `int` local that receives a byte holds its value.
* A pointer is modelled by the contents of the storage it points to, a function
  from offsets to bytes (`Mem`).  Offsets beyond the allocated array are part of
  the function too: the C++ code performs no bounds checks, so what it reads
  there is whatever the surrounding storage holds.
* Output pointers are only ever written sequentially (`*a++ = x`), so a decoder
  returns the list of bytes it wrote, in order, starting at the output pointer.
* The host is little-endian (the code reads `uint16_t` fields with `File.read`
  and copies an `int` out with `memcpy`), `int` has 32 bits and `size_t` 64.
-/

namespace tga

/-! ## Bytes and storage -/

/-- One `uint8_t`. -/
abbrev Byte := Fin 256

/-- Contents of the storage a pointer points to, by offset. -/
abbrev Mem := Nat → Byte

/-- Conversion of an integer value to `uint8_t`. -/
def byteOf (n : Nat) : Byte := ⟨n % 256, Nat.mod_lt n (by decide)⟩

/-- Storage that holds the bytes `l` from offset 0 and `rest` everywhere else. -/
def memOf (l : List Byte) (rest : Mem) : Mem :=
  fun p => if h : p < l.length then l.get ⟨p, h⟩ else rest p

/-- Storage that is zero everywhere. -/
def zeroMem : Mem := fun _ => 0

/-- The first `n` bytes of a storage area. -/
def memTake (m : Mem) (n : Nat) : List Byte := (List.range n).map m

/-! ## Paletted expansion (`RGBPaletted`, `RGBAPaletted`) -/

/-- `InBuffer[i]` for `Type = uint8_t`. -/
def index8 (InBuffer : Mem) (i : Nat) : Nat := (InBuffer i).val

/-- `InBuffer[i]` for `Type = uint16_t` (little-endian host). -/
def index16 (InBuffer : Mem) (i : Nat) : Nat :=
  (InBuffer (2 * i)).val + 256 * (InBuffer (2 * i + 1)).val

/-- The loop of `RGBPaletted`: the first argument counts the iterations left. -/
def RGBPalettedLoop (InBuffer : Nat → Nat) (ColorMap : Mem) :
    Nat → Nat → List Byte → List Byte
  | 0, _, out => out
  | n + 1, i, out =>
    let Index := InBuffer i
    let ColorMapPtr := Index * 3
    let blue := ColorMap ColorMapPtr
    let green := ColorMap (ColorMapPtr + 1)
    let red := ColorMap (ColorMapPtr + 2)
    RGBPalettedLoop InBuffer ColorMap n (i + 1) (out ++ [red, green, blue])

/-- `TGA::RGBPaletted`; `InBuffer i` is the `i`-th index of the typed buffer. -/
def RGBPaletted (InBuffer : Nat → Nat) (ColorMap : Mem) (Size : Nat) : List Byte :=
  RGBPalettedLoop InBuffer ColorMap Size 0 []

/-- The loop of `RGBAPaletted`. -/
def RGBAPalettedLoop (InBuffer : Nat → Nat) (ColorMap : Mem) :
    Nat → Nat → List Byte → List Byte
  | 0, _, out => out
  | n + 1, i, out =>
    let Index := InBuffer i
    let ColorMapPtr := Index * 4
    let blue := ColorMap ColorMapPtr
    let green := ColorMap (ColorMapPtr + 1)
    let red := ColorMap (ColorMapPtr + 2)
    let alpha := ColorMap (ColorMapPtr + 3)
    RGBAPalettedLoop InBuffer ColorMap n (i + 1) (out ++ [red, green, blue, alpha])

/-- `TGA::RGBAPaletted`. -/
def RGBAPaletted (InBuffer : Nat → Nat) (ColorMap : Mem) (Size : Nat) : List Byte :=
  RGBAPalettedLoop InBuffer ColorMap Size 0 []

/-! ## Run-length decoders

Each decoder returns `(p, out)`: the number of input bytes consumed (the input
pointer is only advanced by `*InBuffer++`, so offsets `0 .. p-1` are exactly the
offsets read) and the bytes written through `OutBuffer`, in order.  The outer
loop takes a fuel argument; `none` means the fuel ran out before `i < Size`
became false.  The counter `i` is a `size_t`; its wrap-around at `2^64` is not
modelled (it needs `Size + 128 > 2^64`).
-/

/-- Inner loop of a run-length packet: `pixelcount` times `WRITEPIXEL8`. -/
def runLoop8 (red : Byte) : Nat → List Byte → List Byte
  | 0, out => out
  | j + 1, out => runLoop8 red j (out ++ [red])

/-- Inner loop of a raw packet: `pixelcount` times `READPIXEL8; WRITEPIXEL8`. -/
def rawLoop8 (InBuffer : Mem) : Nat → Nat → List Byte → Nat × List Byte
  | 0, p, out => (p, out)
  | j + 1, p, out => rawLoop8 InBuffer j (p + 1) (out ++ [InBuffer p])

/-- The packet loop of `MonochromeCompressed`. -/
def MonochromeCompressedLoop (InBuffer : Mem) (Size : Nat) :
    Nat → Nat → Nat → List Byte → Option (Nat × List Byte)
  | 0, i, p, out => if i < Size then none else some (p, out)
  | fuel + 1, i, p, out =>
    if i < Size then
      let header := (InBuffer p).val
      let pixelcount := (header &&& 0x7F) + 1
      if header &&& 0x80 ≠ 0 then
        let red := InBuffer (p + 1)
        MonochromeCompressedLoop InBuffer Size fuel (i + pixelcount) (p + 2)
          (runLoop8 red pixelcount out)
      else
        let r := rawLoop8 InBuffer pixelcount (p + 1) out
        MonochromeCompressedLoop InBuffer Size fuel (i + pixelcount) r.1 r.2
    else some (p, out)

/-- `TGA::MonochromeCompressed`. -/
def MonochromeCompressed (InBuffer : Mem) (Size : Nat) : Option (Nat × List Byte) :=
  MonochromeCompressedLoop InBuffer Size Size 0 0 []

/-- Inner loop of a run-length packet: `pixelcount` times `WRITEPIXEL24`. -/
def runLoop24 (red green blue : Byte) : Nat → List Byte → List Byte
  | 0, out => out
  | j + 1, out => runLoop24 red green blue j (out ++ [red, green, blue])

/-- Inner loop of a raw packet: `pixelcount` times `READPIXEL24; WRITEPIXEL24`. -/
def rawLoop24 (InBuffer : Mem) : Nat → Nat → List Byte → Nat × List Byte
  | 0, p, out => (p, out)
  | j + 1, p, out =>
    let blue := InBuffer p
    let green := InBuffer (p + 1)
    let red := InBuffer (p + 2)
    rawLoop24 InBuffer j (p + 3) (out ++ [red, green, blue])

/-- The packet loop of `RGBCompressed`. -/
def RGBCompressedLoop (InBuffer : Mem) (Size : Nat) :
    Nat → Nat → Nat → List Byte → Option (Nat × List Byte)
  | 0, i, p, out => if i < Size then none else some (p, out)
  | fuel + 1, i, p, out =>
    if i < Size then
      let header := (InBuffer p).val
      let pixelcount := (header &&& 0x7F) + 1
      if header &&& 0x80 ≠ 0 then
        let blue := InBuffer (p + 1)
        let green := InBuffer (p + 2)
        let red := InBuffer (p + 3)
        RGBCompressedLoop InBuffer Size fuel (i + pixelcount) (p + 4)
          (runLoop24 red green blue pixelcount out)
      else
        let r := rawLoop24 InBuffer pixelcount (p + 1) out
        RGBCompressedLoop InBuffer Size fuel (i + pixelcount) r.1 r.2
    else some (p, out)

/-- `TGA::RGBCompressed`. -/
def RGBCompressed (InBuffer : Mem) (Size : Nat) : Option (Nat × List Byte) :=
  RGBCompressedLoop InBuffer Size Size 0 0 []

/-- The value of `red | (green << 8) | (blue << 16) | (alpha << 24)` stored in
the 32-bit `int pix`, as its bit pattern. -/
def packPix (red green blue alpha : Nat) : Nat :=
  (red ||| (green <<< 8) ||| (blue <<< 16) ||| (alpha <<< 24)) % 2 ^ 32

/-- The four bytes `memcpy(OutBuffer, &pix, 4)` stores on a little-endian host. -/
def pixBytes (pix : Nat) : List Byte :=
  [byteOf pix, byteOf (pix >>> 8), byteOf (pix >>> 16), byteOf (pix >>> 24)]

/-- Inner loop of a run-length packet of `RGBACompressed`: `pixelcount` times
`memcpy(OutBuffer, &pix, 4); OutBuffer += 4`. -/
def runLoop32 (pix : Nat) : Nat → List Byte → List Byte
  | 0, out => out
  | j + 1, out => runLoop32 pix j (out ++ pixBytes pix)

/-- Inner loop of a raw packet: `pixelcount` times `READPIXEL32; WRITEPIXEL32`. -/
def rawLoop32 (InBuffer : Mem) : Nat → Nat → List Byte → Nat × List Byte
  | 0, p, out => (p, out)
  | j + 1, p, out =>
    let blue := InBuffer p
    let green := InBuffer (p + 1)
    let red := InBuffer (p + 2)
    let alpha := InBuffer (p + 3)
    rawLoop32 InBuffer j (p + 4) (out ++ [red, green, blue, alpha])

/-- The packet loop of `RGBACompressed`. -/
def RGBACompressedLoop (InBuffer : Mem) (Size : Nat) :
    Nat → Nat → Nat → List Byte → Option (Nat × List Byte)
  | 0, i, p, out => if i < Size then none else some (p, out)
  | fuel + 1, i, p, out =>
    if i < Size then
      let header := (InBuffer p).val
      let pixelcount := (header &&& 0x7F) + 1
      if header &&& 0x80 ≠ 0 then
        let blue := (InBuffer (p + 1)).val
        let green := (InBuffer (p + 2)).val
        let red := (InBuffer (p + 3)).val
        let alpha := (InBuffer (p + 4)).val
        let pix := packPix red green blue alpha
        RGBACompressedLoop InBuffer Size fuel (i + pixelcount) (p + 5)
          (runLoop32 pix pixelcount out)
      else
        let r := rawLoop32 InBuffer pixelcount (p + 1) out
        RGBACompressedLoop InBuffer Size fuel (i + pixelcount) r.1 r.2
    else some (p, out)

/-- `TGA::RGBACompressed`. -/
def RGBACompressed (InBuffer : Mem) (Size : Nat) : Option (Nat × List Byte) :=
  RGBACompressedLoop InBuffer Size Size 0 0 []

/-! ## The file stream -/

/-- The part of a `std::ifstream` that `Load` uses: the file's bytes, the get
position, and whether the stream is still good (no `failbit`/`eofbit`). -/
structure IFStream where
  bytes : List Byte
  pos : Nat
  good : Bool

/-- `File.read(dest, n)`: on a good stream, extracts up to `n` bytes into `dest`
from offset 0 and sets `failbit|eofbit` when fewer than `n` were available; on a
stream that is not good, extracts nothing and leaves `dest` as it was. -/
def IFStream.read (File : IFStream) (dest : Mem) (n : Nat) : IFStream × Mem :=
  if File.good then
    let got := (File.bytes.drop File.pos).take n
    ({ bytes := File.bytes, pos := File.pos + got.length, good := decide (got.length = n) },
      memOf got dest)
  else (File, dest)

/-! ## `Load` -/

/-- The fields of `struct Header`. -/
structure Header where
  idlen : Nat
  color_map_type : Nat
  image_type : Nat
  color_map_origin : Nat
  color_map_length : Nat
  color_map_entry_size : Nat
  x_origin : Nat
  y_origin : Nat
  width : Nat
  height : Nat
  bits : Nat
  image_descriptor : Nat

/-- The enumeration `ImageFormat`. -/
inductive ImageFormat where
  | Monochrome
  | RGB
  | RGBA
  | Undefined
  deriving DecidableEq, Repr

/-- The data members of a `TGA` object; `Data` holds the contents of the array
the member points to (empty for `nullptr`). -/
structure TGA where
  Data : List Byte
  Size : Nat
  Width : Nat
  Height : Nat
  Format : ImageFormat
  deriving DecidableEq

/-- The object the constructor `TGA()` builds. -/
def TGA.new : TGA :=
  { Data := [], Size := 0, Width := 0, Height := 0, Format := ImageFormat.Undefined }

/-- `GetData()`. -/
def TGA.GetData (t : TGA) : List Byte := t.Data
/-- `GetSize()`. -/
def TGA.GetSize (t : TGA) : Nat := t.Size
/-- `GetWidth()`. -/
def TGA.GetWidth (t : TGA) : Nat := t.Width
/-- `GetHeight()`. -/
def TGA.GetHeight (t : TGA) : Nat := t.Height
/-- `GetFormat()`. -/
def TGA.GetFormat (t : TGA) : ImageFormat := t.Format

/-- What the storage that `Load` obtains holds before `Load` writes to it: the
local `Head` (by file offset of each field byte) and the arrays from `new[]`,
none of which the code initialises.  Each array is given together with the
storage that follows it. -/
structure Env where
  Head : Mem
  Descriptor : Mem
  ColorMap : Mem
  Buffer : Mem
  Data : Mem

/-- `sizeof(Header)`: three `uint8_t`, one byte of padding, two `uint16_t`, one
`uint8_t`, one byte of padding, four `uint16_t`, two `uint8_t`. -/
def sizeofHeader : Nat := 20

/-- A one-byte field after `File.read` into it. -/
def u8 (field : Mem) : Nat := (field 0).val

/-- A `uint16_t` field after `File.read` into it (little-endian host). -/
def u16 (field : Mem) : Nat := (field 0).val + 256 * (field 1).val

/-- The twelve `File.read` calls that fill `Head`, in source order. -/
def readHeader (Head : Mem) (File : IFStream) : IFStream × Header :=
  let r0 := File.read (fun j => Head (0 + j)) 1
  let r1 := r0.1.read (fun j => Head (1 + j)) 1
  let r2 := r1.1.read (fun j => Head (2 + j)) 1
  let r3 := r2.1.read (fun j => Head (3 + j)) 2
  let r4 := r3.1.read (fun j => Head (5 + j)) 2
  let r5 := r4.1.read (fun j => Head (7 + j)) 1
  let r6 := r5.1.read (fun j => Head (8 + j)) 2
  let r7 := r6.1.read (fun j => Head (10 + j)) 2
  let r8 := r7.1.read (fun j => Head (12 + j)) 2
  let r9 := r8.1.read (fun j => Head (14 + j)) 2
  let r10 := r9.1.read (fun j => Head (16 + j)) 1
  let r11 := r10.1.read (fun j => Head (17 + j)) 1
  (r11.1,
    { idlen := u8 r0.2, color_map_type := u8 r1.2, image_type := u8 r2.2,
      color_map_origin := u16 r3.2, color_map_length := u16 r4.2,
      color_map_entry_size := u8 r5.2, x_origin := u16 r6.2, y_origin := u16 r7.2,
      width := u16 r8.2, height := u16 r9.2, bits := u8 r10.2,
      image_descriptor := u8 r11.2 })

/-- The bit pattern of the 32-bit `int` product `a * b`. -/
def intMul (a b : Nat) : Nat := (a * b) % 2 ^ 32

/-- Conversion of a 32-bit `int` (given by its bit pattern) to `size_t`. -/
def toSizeT (x : Nat) : Nat := if x < 2 ^ 31 then x else x + (2 ^ 64 - 2 ^ 32)

/-- The locals of `Load` once the input has been read (lines 237-274). -/
structure Locals where
  FileSize : Nat
  Head : Header
  ColorMap : Mem
  PixelSize : Nat
  DataSize : Nat
  ImageSize : Nat
  /-- Get position of the stream when `File.read((char*)Buffer, DataSize)` is called. -/
  BufferPos : Nat
  /-- Whether the stream was still good at that call. -/
  BufferGood : Bool
  /-- Number of bytes that call stored in `Buffer`. -/
  BufferCount : Nat
  Buffer : Mem

/-- Lines 237-274 of `Load`, the `new[]` calls apart (see `Load`). -/
def readInput (env : Env) (bytes : List Byte) : Locals :=
  let FileSize := bytes.length
  let h := readHeader env.Head { bytes := bytes, pos := 0, good := true }
  let Head := h.2
  let d := h.1.read env.Descriptor Head.image_descriptor
  let ColorMapElementSize := Head.color_map_entry_size / 8
  let ColorMapSize := Head.color_map_length * ColorMapElementSize
  let c := if Head.color_map_type = 1 then d.1.read env.ColorMap ColorMapSize
    else (d.1, env.ColorMap)
  let PixelSize := if Head.color_map_length = 0 then Head.bits / 8 else ColorMapElementSize
  let DataSize := (FileSize + 2 ^ 64 - sizeofHeader) % 2 ^ 64
  let ImageSize := (toSizeT (intMul Head.width Head.height) * PixelSize) % 2 ^ 64
  let b := c.1.read env.Buffer DataSize
  { FileSize := FileSize, Head := Head, ColorMap := c.2, PixelSize := PixelSize,
    DataSize := DataSize, ImageSize := ImageSize, BufferPos := c.1.pos,
    BufferGood := c.1.good, BufferCount := b.1.pos - c.1.pos, Buffer := b.2 }

/-- `std::swap(Data[a], Data[b])`. -/
def swapMem (Data : Mem) (a b : Nat) : Mem :=
  fun p => if p = a then Data b else if p = b then Data a else Data p

/-- The loop `for (i = 0; i < ImageSize; i += PixelSize) swap(Data[i], Data[i+2])`
with a fuel argument; `none` when the fuel runs out first. -/
def swapLoop (PixelSize ImageSize : Nat) : Nat → Nat → Mem → Option Mem
  | 0, i, Data => if i < ImageSize then none else some Data
  | fuel + 1, i, Data =>
    if i < ImageSize then
      swapLoop PixelSize ImageSize fuel (i + PixelSize) (swapMem Data i (i + 2))
    else some Data

/-- `std::copy(&Buffer[0], &Buffer[ImageSize], &Data[0])`. -/
def copyMem (Buffer : Mem) (ImageSize : Nat) (Data : Mem) : Mem :=
  fun p => if p < ImageSize then Buffer p else Data p

/-- The storage at `Data` after a decoder wrote `out` through `OutBuffer = Data`. -/
def written (r : Option (Nat × List Byte)) (Data : Mem) : Option Mem :=
  r.map (fun x => memOf x.2 Data)

/-- The `switch (Head.image_type)` of `Load`: the storage at `Data` afterwards,
or `none` if a loop does not finish.

Accesses outside the arrays obtained from `new[]` (a copy out of a `Buffer`
shorter than `ImageSize`, a palette index past `ColorMapSize`, a write past
`ImageSize`) are given the contents of the surrounding storage, as `Mem`
describes it.  A real run that strays outside the storage of the process is ended
by the system instead; that ending has no counterpart here, so a result of this
function describes a run that was not ended that way. -/
def decodePixels (l : Locals) (Data : Mem) : Option Mem :=
  let Size := toSizeT (intMul l.Head.width l.Head.height)
  match l.Head.image_type with
  | 0 => some Data
  | 1 =>
    if l.Head.bits = 8 then
      match l.PixelSize with
      | 3 => some (memOf (RGBPaletted (index8 l.Buffer) l.ColorMap Size) Data)
      | 4 => some (memOf (RGBAPaletted (index8 l.Buffer) l.ColorMap Size) Data)
      | _ => some Data
    else if l.Head.bits = 16 then
      match l.PixelSize with
      | 3 => some (memOf (RGBPaletted (index16 l.Buffer) l.ColorMap Size) Data)
      | 4 => some (memOf (RGBAPaletted (index16 l.Buffer) l.ColorMap Size) Data)
      | _ => some Data
    else some Data
  | 2 =>
    -- `Head.bits = 24 || Head.bits == 32` assigns `true` to `Head.bits`
    swapLoop l.PixelSize l.ImageSize l.ImageSize 0 (copyMem l.Buffer l.ImageSize Data)
  | 3 =>
    if l.Head.bits = 8 then some (copyMem l.Buffer l.ImageSize Data) else some Data
  | 9 => some Data
  | 10 =>
    if l.Head.bits = 24 then written (RGBCompressed l.Buffer Size) Data
    else if l.Head.bits = 32 then written (RGBACompressed l.Buffer Size) Data
    else some Data
  | 11 =>
    if l.Head.bits = 8 then written (MonochromeCompressed l.Buffer Size) Data
    else some Data
  | _ => some Data

/-- The `switch (PixelSize)` that sets `Format`. -/
def formatOf (PixelSize : Nat) (old : ImageFormat) : ImageFormat :=
  match PixelSize with
  | 1 => ImageFormat.Monochrome
  | 3 => ImageFormat.RGB
  | 4 => ImageFormat.RGBA
  | _ => old

/-- How a call of `Load` ends. -/
inductive Outcome where
  /-- `Load` returned `ret`, leaving the object as given. -/
  | returned (ret : Bool) (self : TGA)
  /-- A `new[]` expression threw (`std::bad_alloc`). -/
  | threw
  /-- A loop did not finish. -/
  | diverged
  deriving DecidableEq

/-- Whether `new uint8_t[n]` throws: requests of `2^63` bytes or more exceed the
largest object, so they always throw.  Smaller requests are taken to be granted;
a real run also throws at a smaller request for which the machine has no
storage, so "does not throw" here means "does not throw for the size alone". -/
def allocFails (n : Nat) : Bool := decide (2 ^ 63 ≤ n)

/-- The storage at `Data` after `Data = new uint8_t[ImageSize]` and
`memset(Data, 0, ImageSize)`: zero inside the array, untouched after it. -/
def freshData (env : Env) (ImageSize : Nat) : Mem :=
  fun p => if p < ImageSize then 0 else env.Data p

/-- `Load` from line 273 on, given the locals: the two remaining `new[]`
expressions, the pixel switch, and the assignments to the members. -/
def LoadFrom (env : Env) (self : TGA) (l : Locals) : Outcome :=
  if allocFails l.DataSize then Outcome.threw
  else if allocFails l.ImageSize then Outcome.threw
  else
    match decodePixels l (freshData env l.ImageSize) with
    | none => Outcome.diverged
    | some Data =>
      Outcome.returned true
        { Data := memTake Data l.ImageSize
          Size := l.ImageSize
          Width := l.Head.width
          Height := l.Head.height
          Format := formatOf l.PixelSize self.Format }

/-- `TGA::Load`.  The argument `file` is `none` when the file cannot be opened
and the file's contents otherwise; `self` is the object before the call. -/
def Load (env : Env) (self : TGA) (file : Option (List Byte)) : Outcome :=
  match file with
  | none => Outcome.returned false self
  | some bytes => LoadFrom env self (readInput env bytes)

/-- An environment whose uninitialised storage holds `v` everywhere. -/
def Env.const (v : Byte) : Env :=
  { Head := fun _ => v, Descriptor := fun _ => v, ColorMap := fun _ => v,
    Buffer := fun _ => v, Data := fun _ => v }

/-! ## A common form of the three packet loops

`rleLoop` is the packet loop with the pixel width `k` and the bytes a packet
emits per pixel as parameters; the three decoders are shown equal to instances
of it (`MonochromeCompressedLoop_eq`, `RGBCompressedLoop_eq`,
`RGBACompressedLoop_eq` below), so that their properties are proved once. -/

/-- The packet loop, generic in the pixel width. -/
def rleLoop (k : Nat) (emitRun emitRaw : Mem → Nat → List Byte) (InBuffer : Mem) (Size : Nat) :
    Nat → Nat → Nat → List Byte → Option (Nat × List Byte)
  | 0, i, p, out => if i < Size then none else some (p, out)
  | fuel + 1, i, p, out =>
    if i < Size then
      let header := (InBuffer p).val
      let pixelcount := (header &&& 0x7F) + 1
      if header &&& 0x80 ≠ 0 then
        rleLoop k emitRun emitRaw InBuffer Size fuel (i + pixelcount) (p + 1 + k)
          (out ++ (List.replicate pixelcount (emitRun InBuffer (p + 1))).flatten)
      else
        rleLoop k emitRun emitRaw InBuffer Size fuel (i + pixelcount) (p + 1 + k * pixelcount)
          (out ++ (List.range pixelcount).flatMap (fun j => emitRaw InBuffer (p + 1 + k * j)))
    else some (p, out)

/-- What one pixel read at offset `q` contributes to the output of
`MonochromeCompressed`. -/
def emit8 (m : Mem) (q : Nat) : List Byte := [m q]

/-- What one pixel read at offset `q` contributes to the output of `RGBCompressed`. -/
def emit24 (m : Mem) (q : Nat) : List Byte := [m (q + 2), m (q + 1), m q]

/-- What one pixel read at offset `q` contributes to the output of a raw packet
of `RGBACompressed`. -/
def emit32 (m : Mem) (q : Nat) : List Byte := [m (q + 2), m (q + 1), m q, m (q + 3)]

/-- What the pixel read at offset `q` contributes, per repetition, to the output
of a run-length packet of `RGBACompressed`. -/
def emitPix32 (m : Mem) (q : Nat) : List Byte :=
  pixBytes (packPix (m (q + 2)).val (m (q + 1)).val (m q).val (m (q + 3)).val)

/-- The storage `m` holds the bytes `l` from offset `p` on. -/
def ReadsAt (m : Mem) (p : Nat) (l : List Byte) : Prop :=
  ∀ j, j < l.length → l[j]? = some (m (p + j))

/-! ## Packets

A packet stream is described by a list of packets over a pixel type `α`; `enc`
gives the bytes of a pixel in the stream and `dec` the bytes the decoder writes
for it. -/

/-- A run-length packet (`count` repetitions of one pixel) or a raw packet (the
pixels listed). -/
inductive Packet (α : Type) where
  | run (count : Nat) (px : α)
  | raw (pxs : List α)

/-- The run length of a packet, in pixels. -/
def Packet.count {α : Type} : Packet α → Nat
  | Packet.run n _ => n
  | Packet.raw pxs => pxs.length

/-- A packet is well-formed when its run length is between 1 and 128. -/
def Packet.WellFormed {α : Type} (p : Packet α) : Prop := 1 ≤ p.count ∧ p.count ≤ 128

/-- The bytes of a packet: the header byte (`0x80 | (count - 1)` for a run-length
packet, `count - 1` for a raw packet) and the pixel bytes. -/
def Packet.encode {α : Type} (enc : α → List Byte) : Packet α → List Byte
  | Packet.run n px => byteOf (0x80 ||| (n - 1)) :: enc px
  | Packet.raw pxs => byteOf (pxs.length - 1) :: pxs.flatMap enc

/-- The expansion of a packet: the decoded pixel repeated, or the decoded pixels
in order. -/
def Packet.expand {α : Type} (dec : α → List Byte) : Packet α → List Byte
  | Packet.run n px => (List.replicate n (dec px)).flatten
  | Packet.raw pxs => pxs.flatMap dec

/-- The bytes of a packet sequence. -/
def encodeAll {α : Type} (enc : α → List Byte) (ps : List (Packet α)) : List Byte :=
  ps.flatMap (Packet.encode enc)

/-- The concatenated expansions of a packet sequence. -/
def expandAll {α : Type} (dec : α → List Byte) (ps : List (Packet α)) : List Byte :=
  ps.flatMap (Packet.expand dec)

/-- The sum of the run lengths of a packet sequence. -/
def totalCount {α : Type} (ps : List (Packet α)) : Nat := (ps.map Packet.count).sum

/-- A monochrome pixel in the stream and in the output: the byte itself. -/
def mono (v : Byte) : List Byte := [v]

/-- A 24-bit pixel `(B, G, R)` in the stream. -/
def bgr (px : Byte × Byte × Byte) : List Byte := [px.1, px.2.1, px.2.2]

/-- A 24-bit pixel `(B, G, R)` in the output: `R, G, B`. -/
def rgb (px : Byte × Byte × Byte) : List Byte := [px.2.2, px.2.1, px.1]

/-- A 32-bit pixel `(B, G, R, A)` in the stream. -/
def bgra (px : Byte × Byte × Byte × Byte) : List Byte := [px.1, px.2.1, px.2.2.1, px.2.2.2]

/-- A 32-bit pixel `(B, G, R, A)` in the output: `R, G, B, A`. -/
def rgba (px : Byte × Byte × Byte × Byte) : List Byte := [px.2.2.1, px.2.1, px.1, px.2.2.2]

/-- The stream with one more byte `x` in front of its contents and of its
position. -/
def IFStream.shift (x : Byte) (s : IFStream) : IFStream :=
  { bytes := x :: s.bytes, pos := s.pos + 1, good := s.good }

/-- The eleven header reads that follow the read of `idlen`, from the stream
`File`; `idlen` is left 0.  Used to state that the later reads do not depend on
the first byte of the file. -/
def readHeaderTail (Head : Mem) (File : IFStream) : IFStream × Header :=
  let r1 := File.read (fun j => Head (1 + j)) 1
  let r2 := r1.1.read (fun j => Head (2 + j)) 1
  let r3 := r2.1.read (fun j => Head (3 + j)) 2
  let r4 := r3.1.read (fun j => Head (5 + j)) 2
  let r5 := r4.1.read (fun j => Head (7 + j)) 1
  let r6 := r5.1.read (fun j => Head (8 + j)) 2
  let r7 := r6.1.read (fun j => Head (10 + j)) 2
  let r8 := r7.1.read (fun j => Head (12 + j)) 2
  let r9 := r8.1.read (fun j => Head (14 + j)) 2
  let r10 := r9.1.read (fun j => Head (16 + j)) 1
  let r11 := r10.1.read (fun j => Head (17 + j)) 1
  (r11.1,
    { idlen := 0, color_map_type := u8 r1.2, image_type := u8 r2.2,
      color_map_origin := u16 r3.2, color_map_length := u16 r4.2,
      color_map_entry_size := u8 r5.2, x_origin := u16 r6.2, y_origin := u16 r7.2,
      width := u16 r8.2, height := u16 r9.2, bits := u8 r10.2,
      image_descriptor := u8 r11.2 })

/-- The stream and the header after the twelve header reads. -/
def headerRead (env : Env) (b : List Byte) : IFStream × Header :=
  readHeader env.Head { bytes := b, pos := 0, good := true }

/-- The stream after `File.read((char*)Descriptor, Head.image_descriptor)`. -/
def idRead (env : Env) (b : List Byte) : IFStream × Mem :=
  (headerRead env b).1.read env.Descriptor (headerRead env b).2.image_descriptor

/-- The stream and the colour map after the conditional read of the colour map. -/
def colorMapRead (env : Env) (b : List Byte) : IFStream × Mem :=
  if (headerRead env b).2.color_map_type = 1 then
    (idRead env b).1.read env.ColorMap
      ((headerRead env b).2.color_map_length * ((headerRead env b).2.color_map_entry_size / 8))
  else ((idRead env b).1, env.ColorMap)

/-- The number of colour-map bytes `Load` reads from the file: `ColorMapSize`
when `color_map_type` is 1, none otherwise. -/
def colorMapBytes (Head : Header) : Nat :=
  if Head.color_map_type = 1 then Head.color_map_length * (Head.color_map_entry_size / 8) else 0

/-- The file offset `18 + image_descriptor + C` of the pixel data stream. -/
def pixelOffset (Head : Header) : Nat := 18 + Head.image_descriptor + colorMapBytes Head

/-- A 1x1 uncompressed 24-bit image (type 2, no colour map, empty id field)
followed by two further bytes. -/
def sampleTruecolor : List Byte :=
  [0, 0, 2, 0, 0, 0, 0, 0, 0, 0, 0, 0, 1, 0, 1, 0, 24, 0, 10, 20, 30, 0, 0]

/-- The pixel data stream: the bytes of the file that
`File.read((char*)Buffer, DataSize)` stores in `Buffer` (none when the stream is
no longer good at that call). -/
def pixelStream (env : Env) (b : List Byte) : List Byte :=
  if (colorMapRead env b).1.good then
    ((colorMapRead env b).1.bytes.drop (colorMapRead env b).1.pos).take
      (readInput env b).DataSize
  else []

/-- The specification's `bytesPerPixel` of a format tag: 1, 3 and 4 for
`Monochrome`, `RGB` and `RGBA` (0 is chosen for `Undefined`, which has none). -/
def bytesPerPixel : ImageFormat → Nat
  | ImageFormat.Monochrome => 1
  | ImageFormat.RGB => 3
  | ImageFormat.RGBA => 4
  | ImageFormat.Undefined => 0

/-- A header with `color_map_type = 0`, `color_map_length = 1`,
`color_map_entry_size = 32` and `bits = 24` (type 2, 1x1), and nothing after it. -/
def sampleStrayMapLength : List Byte :=
  [0, 0, 2, 0, 0, 1, 0, 32, 0, 0, 0, 0, 1, 0, 1, 0, 24, 0]

/-- The claimed result of paletted expansion with entries of `E` bytes: `out`
has `n * E` bytes and pixel `i` is the colour-map entry `idx i` with offsets 0
and 2 exchanged (and, for `E = 4`, offset 3 kept). -/
def PalettedSpec (E : Nat) (out : List Byte) (idx : Nat → Nat) (ColorMap : Mem) (n : Nat) :
    Prop :=
  out.length = n * E ∧
  ∀ i, i < n →
    out[E * i]? = some (ColorMap (E * idx i + 2)) ∧
    out[E * i + 1]? = some (ColorMap (E * idx i + 1)) ∧
    out[E * i + 2]? = some (ColorMap (E * idx i)) ∧
    (E = 4 → out[E * i + 3]? = some (ColorMap (E * idx i + 3)))

/-- The safety property claimed of a decoder run `r` on an input of `L` bytes
with an output array of `W` bytes: if the run produced a result, it consumed no
more than `L` input bytes and wrote no more than `W` output bytes. -/
def StaysInBounds (r : Option (Nat × List Byte)) (L W : Nat) : Prop :=
  ∀ p out, r = some (p, out) → p ≤ L ∧ out.length ≤ W

/-- A header alone (18 bytes): image type 9, 0x0 pixels, 8 bits. -/
def sampleShortType9 : List Byte :=
  [0, 0, 9, 0, 0, 0, 0, 0, 0, 0, 0, 0, 0, 0, 0, 0, 8, 0]

/-- A 20-byte file: image type 0, 1x1 pixels, 16 bits, no colour map, and two
further bytes. -/
def sample16BitNoImage : List Byte :=
  [0, 0, 0, 0, 0, 0, 0, 0, 0, 0, 0, 0, 1, 0, 1, 0, 16, 0, 0, 0]

/-- A 20-byte file: image type 0, 1x1 pixels, 24 bits, no colour map, and two
further bytes (5 and 6). -/
def sampleNoImage24 : List Byte :=
  [0, 0, 0, 0, 0, 0, 0, 0, 0, 0, 0, 0, 1, 0, 1, 0, 24, 0, 5, 6]

/-- A 21-byte file: image type 1 (paletted), colour-map flag 0, colour-map length
1 with 24-bit entries, 1x1 pixels of 8 bits; after the header the index byte 0
and two further bytes.  No colour map is stored in the file. -/
def samplePalettedNoFlag : List Byte :=
  [0, 0, 1, 0, 0, 1, 0, 24, 0, 0, 0, 0, 1, 0, 1, 0, 8, 0, 0, 0, 0]

/-- A 21-byte file made of exactly the header and the pixel data: image type 2,
no colour map, empty id field, 1x1 pixels of 24 bits, pixel `10, 20, 30`. -/
def sampleExactTruecolor : List Byte :=
  [0, 0, 2, 0, 0, 0, 0, 0, 0, 0, 0, 0, 1, 0, 1, 0, 24, 0, 10, 20, 30]

/-- An environment that is zero everywhere except for the storage at `ColorMap`. -/
def Env.withColorMap (ColorMap : Mem) : Env :=
  { Head := zeroMem, Descriptor := zeroMem, ColorMap := ColorMap, Buffer := zeroMem,
    Data := zeroMem }

/-- An environment that is zero everywhere except for the storage at `Buffer`. -/
def Env.withBuffer (Buffer : Mem) : Env :=
  { Head := zeroMem, Descriptor := zeroMem, ColorMap := zeroMem, Buffer := Buffer,
    Data := zeroMem }

/-- The packet loop with its output left out and two counters kept: the result
is `(packets, i, p)`, the number of packets processed, the pixel counter `i` when
the loop is left, and the number of input bytes consumed.  The last argument is
the number of packets processed so far. -/
def rleCount (k : Nat) (InBuffer : Mem) (Size : Nat) :
    Nat → Nat → Nat → Nat → Option (Nat × Nat × Nat)
  | 0, i, p, n => if i < Size then none else some (n, i, p)
  | fuel + 1, i, p, n =>
    if i < Size then
      let header := (InBuffer p).val
      let pixelcount := (header &&& 0x7F) + 1
      if header &&& 0x80 ≠ 0 then
        rleCount k InBuffer Size fuel (i + pixelcount) (p + 1 + k) (n + 1)
      else
        rleCount k InBuffer Size fuel (i + pixelcount) (p + 1 + k * pixelcount) (n + 1)
    else some (n, i, p)

/-- The loop indices `i` that the swap loop of the type-2 branch reaches, in
order (the loop touches `Data[i]` and `Data[i + 2]` at each of them). -/
def swapIndices (PixelSize ImageSize : Nat) : Nat → Nat → List Nat
  | 0, _ => []
  | fuel + 1, i =>
    if i < ImageSize then i :: swapIndices PixelSize ImageSize fuel (i + PixelSize) else []

/-- An environment that is zero everywhere except for the storage after `Data`. -/
def Env.withData (Data : Mem) : Env :=
  { Head := zeroMem, Descriptor := zeroMem, ColorMap := zeroMem, Buffer := zeroMem,
    Data := Data }

/-- A 21-byte file: image type 2, no colour map, 1x1 pixels of 8 bits; after the
header the pixel byte 5 and two further bytes. -/
def sampleType2EightBits : List Byte :=
  [0, 0, 2, 0, 0, 0, 0, 0, 0, 0, 0, 0, 1, 0, 1, 0, 8, 0, 5, 0, 0]

/-- A 20-byte file: image type 0, no colour map, 65535x65535 pixels of 8 bits,
and two further bytes. -/
def sampleHugeDimensions : List Byte :=
  [0, 0, 0, 0, 0, 0, 0, 0, 0, 0, 0, 0, 255, 255, 255, 255, 8, 0, 0, 0]

/-- A header alone (18 bytes): image type 3, no colour map, 0x0 pixels of 8 bits;
the file consists of exactly the header and its zero pixel bytes. -/
def sampleEmptyMonochrome : List Byte :=
  [0, 0, 3, 0, 0, 0, 0, 0, 0, 0, 0, 0, 0, 0, 0, 0, 8, 0]

/-- A 28-byte file: image type 10, 24 bits, 1x1 pixels, with a colour map of one
32-bit entry (`1, 2, 3, 4`); the pixel stream is the raw packet
`0x00, 10, 20, 30`, followed by two further bytes. -/
def sampleRleWithColorMap : List Byte :=
  [0, 1, 10, 0, 0, 1, 0, 32, 0, 0, 0, 0, 1, 0, 1, 0, 24, 0,
    1, 2, 3, 4, 0x00, 10, 20, 30, 0, 0]

/-- A 25-byte file: as `sampleRleWithColorMap`, with a colour map of one 8-bit
entry (`1`). -/
def sampleRleNarrowColorMap : List Byte :=
  [0, 1, 10, 0, 0, 1, 0, 8, 0, 0, 0, 0, 1, 0, 1, 0, 24, 0,
    1, 0x00, 10, 20, 30, 0, 0]

/-- A complete 19-byte file: the header of a 1x1 image of type 3 with 8 bits, no
colour map and an empty id field, followed by its one pixel byte. -/
def sampleTinyMonochrome : List Byte :=
  [0, 0, 3, 0, 0, 0, 0, 0, 0, 0, 0, 0, 1, 0, 1, 0, 8, 0, 42]

/-- A 24-byte file: the header `sampleStrayMapLength` (image type 2, colour-map
flag 0, colour-map length 1 with 32-bit entries, 1x1 pixels of 24 bits) followed
by the bytes `10, 20, 30, 40, 50, 60`. -/
def sampleStrayMapTruecolor : List Byte :=
  [0, 0, 2, 0, 0, 1, 0, 32, 0, 0, 0, 0, 1, 0, 1, 0, 24, 0, 10, 20, 30, 40, 50, 60]

/-! ## Theorems -/

/-! ### Inner loops in closed form -/

theorem range_succ_flatMap {β : Type} (n : Nat) (f : Nat → List β) :
    (List.range (n + 1)).flatMap f = f 0 ++ (List.range n).flatMap (fun j => f (j + 1)) := by
  rw [List.range_succ_eq_map, List.flatMap_cons, List.flatMap_map]

theorem runLoop8_eq (red : Byte) (n : Nat) (out : List Byte) :
    runLoop8 red n out = out ++ (List.replicate n [red]).flatten := by
  induction n generalizing out with
  | zero => simp [runLoop8]
  | succ n ih => simp [runLoop8, ih, List.replicate_succ]

theorem runLoop24_eq (red green blue : Byte) (n : Nat) (out : List Byte) :
    runLoop24 red green blue n out = out ++ (List.replicate n [red, green, blue]).flatten := by
  induction n generalizing out with
  | zero => simp [runLoop24]
  | succ n ih => simp [runLoop24, ih, List.replicate_succ]

theorem runLoop32_eq (pix : Nat) (n : Nat) (out : List Byte) :
    runLoop32 pix n out = out ++ (List.replicate n (pixBytes pix)).flatten := by
  induction n generalizing out with
  | zero => simp [runLoop32]
  | succ n ih => simp [runLoop32, ih, List.replicate_succ]

theorem rawLoop8_eq (m : Mem) (n p : Nat) (out : List Byte) :
    rawLoop8 m n p out
      = (p + 1 * n, out ++ (List.range n).flatMap (fun j => emit8 m (p + 1 * j))) := by
  induction n generalizing p out with
  | zero => simp [rawLoop8]
  | succ n ih =>
    rw [rawLoop8, ih, range_succ_flatMap]
    have e : ∀ j, p + 1 + 1 * j = p + 1 * (j + 1) := fun j => by omega
    simp only [emit8, e, Nat.mul_zero, Nat.add_zero, List.append_assoc, Prod.mk.injEq,
      and_true]

theorem rawLoop24_eq (m : Mem) (n p : Nat) (out : List Byte) :
    rawLoop24 m n p out
      = (p + 3 * n, out ++ (List.range n).flatMap (fun j => emit24 m (p + 3 * j))) := by
  induction n generalizing p out with
  | zero => simp [rawLoop24]
  | succ n ih =>
    rw [rawLoop24, ih, range_succ_flatMap]
    have e : ∀ j, p + 3 + 3 * j = p + 3 * (j + 1) := fun j => by omega
    simp only [emit24, e, Nat.mul_zero, Nat.add_zero, List.append_assoc, Prod.mk.injEq,
      and_true]

theorem rawLoop32_eq (m : Mem) (n p : Nat) (out : List Byte) :
    rawLoop32 m n p out
      = (p + 4 * n, out ++ (List.range n).flatMap (fun j => emit32 m (p + 4 * j))) := by
  induction n generalizing p out with
  | zero => simp [rawLoop32]
  | succ n ih =>
    rw [rawLoop32, ih, range_succ_flatMap]
    have e : ∀ j, p + 4 + 4 * j = p + 4 * (j + 1) := fun j => by omega
    simp only [emit32, e, Nat.mul_zero, Nat.add_zero, List.append_assoc, Prod.mk.injEq,
      and_true]

/-! ### The decoders as instances of `rleLoop` -/

theorem MonochromeCompressedLoop_eq (m : Mem) (Size fuel i p : Nat) (out : List Byte) :
    MonochromeCompressedLoop m Size fuel i p out = rleLoop 1 emit8 emit8 m Size fuel i p out := by
  induction fuel generalizing i p out with
  | zero => rfl
  | succ fuel ih =>
    simp only [MonochromeCompressedLoop, rleLoop, runLoop8_eq, rawLoop8_eq, ih, emit8]

theorem RGBCompressedLoop_eq (m : Mem) (Size fuel i p : Nat) (out : List Byte) :
    RGBCompressedLoop m Size fuel i p out = rleLoop 3 emit24 emit24 m Size fuel i p out := by
  induction fuel generalizing i p out with
  | zero => rfl
  | succ fuel ih =>
    simp only [RGBCompressedLoop, rleLoop, runLoop24_eq, rawLoop24_eq, ih, emit24]

theorem RGBACompressedLoop_eq (m : Mem) (Size fuel i p : Nat) (out : List Byte) :
    RGBACompressedLoop m Size fuel i p out
      = rleLoop 4 emitPix32 emit32 m Size fuel i p out := by
  induction fuel generalizing i p out with
  | zero => rfl
  | succ fuel ih =>
    simp only [RGBACompressedLoop, rleLoop, runLoop32_eq, rawLoop32_eq, ih, emit32, emitPix32]

/-- The packet loop finishes whenever the fuel covers the pixels left. -/
theorem rleLoop_isSome (k : Nat) (eRun eRaw : Mem → Nat → List Byte) (m : Mem) (Size : Nat)
    (fuel i p : Nat) (out : List Byte) (h : Size ≤ fuel + i) :
    (rleLoop k eRun eRaw m Size fuel i p out).isSome = true := by
  induction fuel generalizing i p out with
  | zero =>
    have : ¬ i < Size := by omega
    simp [rleLoop, this]
  | succ fuel ih =>
    rw [rleLoop]
    by_cases hi : i < Size
    · simp only [hi, if_true]
      split
      · exact ih _ _ _ (by omega)
      · exact ih _ _ _ (by omega)
    · simp [hi]

/-! ### `Load`: termination of the pixel switch and the shape of the result -/

theorem swapLoop_isSome (PixelSize ImageSize fuel i : Nat) (Data : Mem)
    (hp : 0 < PixelSize ∨ ImageSize ≤ i) (hf : ImageSize ≤ fuel + i) :
    (swapLoop PixelSize ImageSize fuel i Data).isSome = true := by
  induction fuel generalizing i Data with
  | zero =>
    have : ¬ i < ImageSize := by omega
    simp [swapLoop, this]
  | succ fuel ih =>
    rw [swapLoop]
    by_cases hi : i < ImageSize
    · simp only [hi, if_true]
      exact ih _ _ (by omega) (by omega)
    · simp [hi]

theorem written_isSome (r : Option (Nat × List Byte)) (Data : Mem) (h : r.isSome = true) :
    (written r Data).isSome = true := by
  cases r with
  | none => simp at h
  | some x => simp [written]

theorem MonochromeCompressed_isSome (m : Mem) (Size : Nat) :
    (MonochromeCompressed m Size).isSome = true := by
  rw [MonochromeCompressed, MonochromeCompressedLoop_eq]
  exact rleLoop_isSome _ _ _ _ _ _ _ _ _ (by omega)

theorem RGBCompressed_isSome (m : Mem) (Size : Nat) :
    (RGBCompressed m Size).isSome = true := by
  rw [RGBCompressed, RGBCompressedLoop_eq]
  exact rleLoop_isSome _ _ _ _ _ _ _ _ _ (by omega)

theorem RGBACompressed_isSome (m : Mem) (Size : Nat) :
    (RGBACompressed m Size).isSome = true := by
  rw [RGBACompressed, RGBACompressedLoop_eq]
  exact rleLoop_isSome _ _ _ _ _ _ _ _ _ (by omega)

theorem decodePixels_isSome (l : Locals) (Data : Mem)
    (h0 : l.PixelSize = 0 → l.ImageSize = 0) :
    (decodePixels l Data).isSome = true := by
  unfold decodePixels
  simp only
  split
  · rfl
  · split
    · split <;> rfl
    · split
      · split <;> rfl
      · rfl
  · apply swapLoop_isSome
    · rcases Nat.eq_zero_or_pos l.PixelSize with hz | hz
      · right; rw [h0 hz]
      · left; exact hz
    · omega
  · split <;> rfl
  · rfl
  · split
    · exact written_isSome _ _ (RGBCompressed_isSome _ _)
    · split
      · exact written_isSome _ _ (RGBACompressed_isSome _ _)
      · rfl
  · split
    · exact written_isSome _ _ (MonochromeCompressed_isSome _ _)
    · rfl
  · rfl

theorem readInput_PixelSize_zero (env : Env) (b : List Byte)
    (h : (readInput env b).PixelSize = 0) : (readInput env b).ImageSize = 0 := by
  have e : (readInput env b).ImageSize
      = (toSizeT (intMul (readInput env b).Head.width (readInput env b).Head.height)
          * (readInput env b).PixelSize) % 2 ^ 64 := rfl
  rw [e, h]
  simp

theorem memTake_length (m : Mem) (n : Nat) : (memTake m n).length = n := by
  simp [memTake]

/-- `Load` on an opened file either throws from a `new[]` expression or returns
`true` with the members set from the locals; it never fails to finish. -/
theorem Load_some (env : Env) (self : TGA) (b : List Byte) :
    (Load env self (some b) = Outcome.threw ∧
      (allocFails (readInput env b).DataSize = true ∨
        allocFails (readInput env b).ImageSize = true)) ∨
    (allocFails (readInput env b).DataSize = false ∧
      allocFails (readInput env b).ImageSize = false ∧
      ∃ Data, decodePixels (readInput env b) (freshData env (readInput env b).ImageSize)
          = some Data ∧
        Load env self (some b) = Outcome.returned true
          { Data := memTake Data (readInput env b).ImageSize
            Size := (readInput env b).ImageSize
            Width := (readInput env b).Head.width
            Height := (readInput env b).Head.height
            Format := formatOf (readInput env b).PixelSize self.Format }) := by
  cases hD : allocFails (readInput env b).DataSize with
  | true => left; simp [Load, LoadFrom, hD]
  | false =>
    cases hI : allocFails (readInput env b).ImageSize with
    | true => left; simp [Load, LoadFrom, hD, hI]
    | false =>
      right
      refine ⟨rfl, rfl, ?_⟩
      have hs := decodePixels_isSome (readInput env b)
        (freshData env (readInput env b).ImageSize) (readInput_PixelSize_zero env b)
      obtain ⟨Data, hData⟩ := Option.isSome_iff_exists.mp hs
      refine ⟨Data, hData, ?_⟩
      simp only [Load, LoadFrom, hD, hI, Bool.false_eq_true, if_false]
      rw [hData]

theorem readInput_PixelSize_lt (env : Env) (b : List Byte) :
    (readInput env b).PixelSize < 32 := by
  have e : (readInput env b).PixelSize
      = if (readInput env b).Head.color_map_length = 0 then (readInput env b).Head.bits / 8
        else (readInput env b).Head.color_map_entry_size / 8 := rfl
  rw [e]
  split
  · exact Nat.div_lt_of_lt_mul (Fin.is_lt _)
  · exact Nat.div_lt_of_lt_mul (Fin.is_lt _)

theorem toSizeT_intMul (w h : Nat) (hwh : w * h < 2 ^ 31) : toSizeT (intMul w h) = w * h := by
  have e : intMul w h = w * h := by
    unfold intMul
    exact Nat.mod_eq_of_lt (by omega)
  rw [e, toSizeT, if_pos hwh]

theorem readInput_ImageSize (env : Env) (b : List Byte)
    (hwh : (readInput env b).Head.width * (readInput env b).Head.height < 2 ^ 31) :
    (readInput env b).ImageSize
      = (readInput env b).Head.width * (readInput env b).Head.height
          * (readInput env b).PixelSize := by
  have e : (readInput env b).ImageSize
      = (toSizeT (intMul (readInput env b).Head.width (readInput env b).Head.height)
          * (readInput env b).PixelSize) % 2 ^ 64 := rfl
  rw [e, toSizeT_intMul _ _ hwh]
  apply Nat.mod_eq_of_lt
  have hp := readInput_PixelSize_lt env b
  calc (readInput env b).Head.width * (readInput env b).Head.height
          * (readInput env b).PixelSize
      ≤ 2 ^ 31 * 32 := Nat.mul_le_mul (Nat.le_of_lt hwh) (Nat.le_of_lt hp)
    _ < 2 ^ 64 := by decide

theorem readInput_DataSize (env : Env) (b : List Byte) (h20 : 20 ≤ b.length)
    (hlt : b.length < 2 ^ 63) : (readInput env b).DataSize = b.length - 20 := by
  have e : (readInput env b).DataSize = (b.length + 2 ^ 64 - sizeofHeader) % 2 ^ 64 := rfl
  rw [e, sizeofHeader]
  omega

/-- In the model, `Load` returns `true` on every opened file of between 20 and
`2^63` bytes whose header declares fewer than `2^31` pixels: no request reaches
`2^63` bytes and every loop finishes.  For a real run this presupposes that the
storage requested is available and that the pixel switch stays inside readable
storage (see `allocFails` and `decodePixels`). -/
theorem Load_returns (env : Env) (self : TGA) (b : List Byte) (h20 : 20 ≤ b.length)
    (hlt : b.length < 2 ^ 63)
    (hwh : (readInput env b).Head.width * (readInput env b).Head.height < 2 ^ 31) :
    ∃ Data, decodePixels (readInput env b) (freshData env (readInput env b).ImageSize)
          = some Data ∧
        Load env self (some b) = Outcome.returned true
          { Data := memTake Data (readInput env b).ImageSize
            Size := (readInput env b).ImageSize
            Width := (readInput env b).Head.width
            Height := (readInput env b).Head.height
            Format := formatOf (readInput env b).PixelSize self.Format } := by
  have hD : allocFails (readInput env b).DataSize = false := by
    rw [readInput_DataSize env b h20 hlt]
    simp only [allocFails, decide_eq_false_iff_not]
    omega
  have hI : allocFails (readInput env b).ImageSize = false := by
    rw [readInput_ImageSize env b hwh]
    simp only [allocFails, decide_eq_false_iff_not]
    have hp := readInput_PixelSize_lt env b
    have : (readInput env b).Head.width * (readInput env b).Head.height
          * (readInput env b).PixelSize ≤ 2 ^ 31 * 32 :=
      Nat.mul_le_mul (Nat.le_of_lt hwh) (Nat.le_of_lt hp)
    omega
  rcases Load_some env self b with ⟨_, h | h⟩ | ⟨_, _, h⟩
  · rw [hD] at h; exact absurd h (by decide)
  · rw [hI] at h; exact absurd h (by decide)
  · exact h

/-- Whenever `Load` returns, it returns `true` and the members are those computed
from the locals. -/
theorem Load_returned (env : Env) (self : TGA) (b : List Byte) (ret : Bool) (obj : TGA)
    (h : Load env self (some b) = Outcome.returned ret obj) :
    ret = true ∧ obj.Data.length = (readInput env b).ImageSize ∧
      obj.Size = (readInput env b).ImageSize ∧
      obj.Width = (readInput env b).Head.width ∧
      obj.Height = (readInput env b).Head.height ∧
      obj.Format = formatOf (readInput env b).PixelSize self.Format := by
  rcases Load_some env self b with ⟨ht, _⟩ | ⟨_, _, Data, _, hr⟩
  · rw [ht] at h; exact absurd h (by simp)
  · rw [hr] at h
    injection h with h1 h2
    subst h1 h2
    exact ⟨rfl, memTake_length _ _, rfl, rfl, rfl, rfl⟩

theorem read_good (bs : List Byte) (pos n : Nat) (dest : Mem) (h : pos + n ≤ bs.length) :
    IFStream.read { bytes := bs, pos := pos, good := true } dest n
      = ({ bytes := bs, pos := pos + n, good := true },
          memOf ((bs.drop pos).take n) dest) := by
  have hl : ((bs.drop pos).take n).length = n := by
    rw [List.length_take, List.length_drop]
    omega
  simp [IFStream.read, hl]

theorem memOf_take_drop (bs : List Byte) (pos n j : Nat) (dest : Mem) (hj : j < n)
    (h : pos + j < bs.length) :
    memOf ((bs.drop pos).take n) dest j = bs[pos + j] := by
  have hl : j < ((bs.drop pos).take n).length := by
    rw [List.length_take, List.length_drop]
    omega
  unfold memOf
  rw [dif_pos hl]
  simp [List.getElem_take, List.getElem_drop]

/-- The header fields of a file of at least 18 bytes. -/
theorem readInput_Head (env : Env) (b : List Byte) (h : 18 ≤ b.length) :
    (readInput env b).Head =
      { idlen := b[0].val, color_map_type := b[1].val, image_type := b[2].val,
        color_map_origin := b[3].val + 256 * b[4].val,
        color_map_length := b[5].val + 256 * b[6].val,
        color_map_entry_size := b[7].val,
        x_origin := b[8].val + 256 * b[9].val,
        y_origin := b[10].val + 256 * b[11].val,
        width := b[12].val + 256 * b[13].val,
        height := b[14].val + 256 * b[15].val,
        bits := b[16].val, image_descriptor := b[17].val } := by
  have e : (readInput env b).Head
      = (readHeader env.Head { bytes := b, pos := 0, good := true }).2 := rfl
  rw [e]
  simp (disch := omega) only [readHeader, read_good, u8, u16, memOf_take_drop]

theorem readHeader_stream (H : Mem) (b : List Byte) (h : 18 ≤ b.length) :
    (readHeader H { bytes := b, pos := 0, good := true }).1
      = { bytes := b, pos := 18, good := true } := by
  simp (disch := omega) only [readHeader, read_good]

/-! ### C1: the header layout -/

/-- C1 at the failing input `sampleTinyMonochrome` (a complete 19-byte file: the
header of a 1x1 8-bit image of type 3 and its one pixel byte): the header is
parsed as the claim says, width and height are 1, but
`DataSize = 19 - sizeof(Header) = 19 - 20` wraps to `2^64 - 1` and
`new uint8_t[DataSize]` throws before the members are assigned, so `GetWidth()`
and `GetHeight()` of a new object stay 0.  For every file of at least 18 bytes the
twelve fields are bytes 0..17 in order, two-byte fields little-endian, and
whenever `Load` returns, `GetWidth()` and `GetHeight()` equal the parsed width
and height. -/
theorem C1_members_unset_on_short_file :
    18 ≤ sampleTinyMonochrome.length ∧
    (readInput (Env.const 0) sampleTinyMonochrome).Head =
      { idlen := 0, color_map_type := 0, image_type := 3, color_map_origin := 0,
        color_map_length := 0, color_map_entry_size := 0, x_origin := 0, y_origin := 0,
        width := 1, height := 1, bits := 8, image_descriptor := 0 } ∧
    (readInput (Env.const 0) sampleTinyMonochrome).DataSize = 2 ^ 64 - 1 ∧
    Load (Env.const 0) TGA.new (some sampleTinyMonochrome) = Outcome.threw ∧
    TGA.new.GetWidth = 0 ∧ TGA.new.GetHeight = 0 ∧
    (∀ (env : Env) (b : List Byte) (h : 18 ≤ b.length),
      (readInput env b).Head =
        { idlen := b[0].val, color_map_type := b[1].val, image_type := b[2].val,
          color_map_origin := b[3].val + 256 * b[4].val,
          color_map_length := b[5].val + 256 * b[6].val,
          color_map_entry_size := b[7].val,
          x_origin := b[8].val + 256 * b[9].val,
          y_origin := b[10].val + 256 * b[11].val,
          width := b[12].val + 256 * b[13].val,
          height := b[14].val + 256 * b[15].val,
          bits := b[16].val, image_descriptor := b[17].val }) ∧
    (∀ (env : Env) (self : TGA) (b : List Byte) (h : 18 ≤ b.length) (ret : Bool) (obj : TGA),
      Load env self (some b) = Outcome.returned ret obj →
      obj.GetWidth = b[12].val + 256 * b[13].val ∧
      obj.GetHeight = b[14].val + 256 * b[15].val) := by
  refine ⟨by decide, ?_, by decide, by decide, rfl, rfl, ?_, ?_⟩
  · rw [readInput_Head (Env.const 0) sampleTinyMonochrome (by decide)]
    rfl
  · exact fun env b h => readInput_Head env b h
  · intro env self b h ret obj hr
    obtain ⟨_, _, _, hw, hh, _⟩ := Load_returned env self b ret obj hr
    rw [readInput_Head env b h] at hw hh
    exact ⟨hw, hh⟩

theorem read_shift (x : Byte) (s : IFStream) (dest : Mem) (n : Nat) :
    (IFStream.shift x s).read dest n
      = (IFStream.shift x (s.read dest n).1, (s.read dest n).2) := by
  unfold IFStream.read IFStream.shift
  cases hg : s.good with
  | true => simp [Nat.add_right_comm]
  | false => simp [hg]

theorem shift_pos (x : Byte) (s : IFStream) : (IFStream.shift x s).pos = s.pos + 1 := rfl

theorem shift_good (x : Byte) (s : IFStream) : (IFStream.shift x s).good = s.good := rfl

theorem read_first (x : Byte) (rest : List Byte) (dest : Mem) :
    IFStream.read { bytes := x :: rest, pos := 0, good := true } dest 1
      = (IFStream.shift x { bytes := rest, pos := 0, good := true }, memOf [x] dest) := by
  simp [IFStream.read, IFStream.shift]

theorem headerRead_cons (env : Env) (x : Byte) (rest : List Byte) :
    headerRead env (x :: rest)
      = (IFStream.shift x (readHeaderTail env.Head { bytes := rest, pos := 0, good := true }).1,
          { (readHeaderTail env.Head { bytes := rest, pos := 0, good := true }).2 with
            idlen := x.val }) := by
  simp only [headerRead, readHeader, readHeaderTail, read_first, read_shift]
  rfl

/-- The locals of `Load` on the file `x :: rest` without the first byte's
contribution (`Head.idlen` is 0). -/
theorem readInput_cons (env : Env) (rest : List Byte) :
    ∃ L : Locals, ∀ x : Byte,
      readInput env (x :: rest) = { L with Head := { L.Head with idlen := x.val } } := by
  refine ⟨readInput env ((0 : Byte) :: rest), fun x => ?_⟩
  have e : ∀ y : Byte, readInput env (y :: rest) =
    { FileSize := rest.length + 1, Head := (headerRead env (y :: rest)).2,
      ColorMap := (colorMapRead env (y :: rest)).2,
      PixelSize := if (headerRead env (y :: rest)).2.color_map_length = 0
        then (headerRead env (y :: rest)).2.bits / 8
        else (headerRead env (y :: rest)).2.color_map_entry_size / 8,
      DataSize := (rest.length + 1 + 2 ^ 64 - sizeofHeader) % 2 ^ 64,
      ImageSize := (toSizeT (intMul (headerRead env (y :: rest)).2.width
        (headerRead env (y :: rest)).2.height) *
        (if (headerRead env (y :: rest)).2.color_map_length = 0
        then (headerRead env (y :: rest)).2.bits / 8
        else (headerRead env (y :: rest)).2.color_map_entry_size / 8)) % 2 ^ 64,
      BufferPos := (colorMapRead env (y :: rest)).1.pos,
      BufferGood := (colorMapRead env (y :: rest)).1.good,
      BufferCount := ((colorMapRead env (y :: rest)).1.read env.Buffer
        ((rest.length + 1 + 2 ^ 64 - sizeofHeader) % 2 ^ 64)).1.pos
          - (colorMapRead env (y :: rest)).1.pos,
      Buffer := ((colorMapRead env (y :: rest)).1.read env.Buffer
        ((rest.length + 1 + 2 ^ 64 - sizeofHeader) % 2 ^ 64)).2 } := fun y => rfl
  rw [e x, e 0]
  simp only [colorMapRead, idRead, headerRead_cons, read_shift]
  split <;> simp only [read_shift, shift_pos, shift_good]

theorem read_snd_good (bs : List Byte) (pos n : Nat) (dest : Mem) :
    (IFStream.read { bytes := bs, pos := pos, good := true } dest n).2
      = memOf ((bs.drop pos).take n) dest := by
  simp [IFStream.read]

theorem colorMapRead_stream (env : Env) (b : List Byte) (h18 : 18 ≤ b.length)
    (hoff : pixelOffset (headerRead env b).2 ≤ b.length) :
    (colorMapRead env b).1
      = { bytes := b, pos := pixelOffset (headerRead env b).2, good := true } := by
  have hs : (headerRead env b).1 = { bytes := b, pos := 18, good := true } :=
    readHeader_stream env.Head b h18
  unfold pixelOffset colorMapBytes at hoff ⊢
  unfold colorMapRead idRead
  rw [hs]
  split
  · rename_i hc
    rw [if_pos hc] at hoff
    rw [read_good _ _ _ _ (by omega)]
    simp only
    rw [read_good _ _ _ _ (by omega)]
  · rename_i hc
    rw [if_neg hc] at hoff
    rw [read_good _ _ _ _ (by omega)]
    rfl

/-! ### C2: where the pixel stream starts -/

/-- C2: for every file `b`, the bytes `Load` reads into `Buffer` (the pixel data
stream handed to the pixel algorithms) are the file's bytes from offset
`18 + image_descriptor + C` on, with `C = color_map_length * (color_map_entry_size / 8)`
when `color_map_type = 1` and `C = 0` otherwise: `Buffer[j]` is byte
`18 + image_descriptor + C + j` of the file for every `j < DataSize` for which
the file has that byte, and the read starts at that offset on a good stream when
the file reaches it.  The byte at offset 0 (`idlen`) has no effect on `Buffer`,
on that offset, or on the outcome of `Load`. -/
theorem C2_pixel_stream_offset (env : Env) (self : TGA) (b : List Byte) :
    (∀ j, j < (readInput env b).DataSize →
      ∀ h : pixelOffset (readInput env b).Head + j < b.length,
        (readInput env b).Buffer j = b[pixelOffset (readInput env b).Head + j]) ∧
    (18 ≤ b.length → pixelOffset (readInput env b).Head ≤ b.length →
      (readInput env b).BufferGood = true ∧
      (readInput env b).BufferPos = pixelOffset (readInput env b).Head) ∧
    (∀ (x y : Byte) (rest : List Byte),
      (readInput env (x :: rest)).Buffer = (readInput env (y :: rest)).Buffer ∧
      (readInput env (x :: rest)).BufferPos = (readInput env (y :: rest)).BufferPos ∧
      pixelOffset (readInput env (x :: rest)).Head
        = pixelOffset (readInput env (y :: rest)).Head ∧
      Load env self (some (x :: rest)) = Load env self (some (y :: rest))) := by
  have hHead : (readInput env b).Head = (headerRead env b).2 := rfl
  have hBuf : (readInput env b).Buffer
      = ((colorMapRead env b).1.read env.Buffer (readInput env b).DataSize).2 := rfl
  have hPos : (readInput env b).BufferPos = (colorMapRead env b).1.pos := rfl
  have hGood : (readInput env b).BufferGood = (colorMapRead env b).1.good := rfl
  refine ⟨?_, ?_, ?_⟩
  · intro j hj h
    have h18 : 18 ≤ b.length := by
      unfold pixelOffset at h
      omega
    have hoff : pixelOffset (headerRead env b).2 ≤ b.length := by
      rw [← hHead]; omega
    rw [hBuf, colorMapRead_stream env b h18 hoff, read_snd_good]
    exact memOf_take_drop _ _ _ _ _ hj h
  · intro h18 hoff
    rw [hHead] at hoff
    rw [hGood, hPos, colorMapRead_stream env b h18 hoff]
    exact ⟨rfl, rfl⟩
  · intro x y rest
    obtain ⟨L, hL⟩ := readInput_cons env rest
    unfold Load
    simp only
    rw [hL x, hL y]
    exact ⟨rfl, rfl, rfl, rfl⟩

/-- C2 at `sampleTruecolor`: the stream starts at offset 18, `Buffer[0]` is byte 18
of the file, and the outcome is the same when the first byte is 9. -/
theorem C2_pixel_stream_offset_witness :
    0 < (readInput (Env.const 0) sampleTruecolor).DataSize ∧
    (readInput (Env.const 0) sampleTruecolor).Buffer 0 = 10 ∧
    (readInput (Env.const 0) sampleTruecolor).BufferPos = 18 ∧
    Load (Env.const 0) TGA.new (some sampleTruecolor)
      = Load (Env.const 0) TGA.new (some (9 :: sampleTruecolor.tail)) := by
  have hC := C2_pixel_stream_offset (Env.const 0) TGA.new sampleTruecolor
  have hoff : pixelOffset (readInput (Env.const 0) sampleTruecolor).Head = 18 := by decide
  refine ⟨by decide, ?_, ?_, ?_⟩
  · have h := hC.1 0 (by decide) (by decide)
    rw [h]
    decide
  · rw [(hC.2.1 (by decide) (by decide)).2, hoff]
  · exact (hC.2.2 0 9 sampleTruecolor.tail).2.2.2

/-! ### C3: size and format of the result -/

/-- C3: whenever `Load` returns `true` on a file for which the computed pixel
size is 1, 3 or 4 and `width * height < 2^31`, the format tag is `Monochrome`,
`RGB` or `RGBA` respectively, and `GetSize()` and the length of the output
buffer both equal `GetWidth() * GetHeight() * bytesPerPixel(GetFormat())`,
whatever the image-type code is. -/
theorem C3_size_and_format (env : Env) (self : TGA) (b : List Byte) (obj : TGA)
    (hL : Load env self (some b) = Outcome.returned true obj)
    (hps : (readInput env b).PixelSize = 1 ∨ (readInput env b).PixelSize = 3 ∨
      (readInput env b).PixelSize = 4)
    (hwh : (readInput env b).Head.width * (readInput env b).Head.height < 2 ^ 31) :
    ((readInput env b).PixelSize = 1 → obj.GetFormat = ImageFormat.Monochrome) ∧
    ((readInput env b).PixelSize = 3 → obj.GetFormat = ImageFormat.RGB) ∧
    ((readInput env b).PixelSize = 4 → obj.GetFormat = ImageFormat.RGBA) ∧
    obj.GetSize = obj.GetWidth * obj.GetHeight * bytesPerPixel obj.GetFormat ∧
    obj.GetData.length = obj.GetWidth * obj.GetHeight * bytesPerPixel obj.GetFormat := by
  obtain ⟨_, hlen, hsize, hw, hh, hf⟩ := Load_returned env self b true obj hL
  have hI := readInput_ImageSize env b hwh
  simp only [TGA.GetFormat, TGA.GetSize, TGA.GetWidth, TGA.GetHeight, TGA.GetData]
  rw [hlen, hsize, hw, hh, hf, hI]
  rcases hps with h | h | h <;> rw [h] <;> simp [formatOf, bytesPerPixel]

/-- C3 at `sampleTruecolor`: `Load` returns an `RGB` object of size `1 * 1 * 3`. -/
theorem C3_size_and_format_witness :
    ∃ obj, Load (Env.const 0) TGA.new (some sampleTruecolor) = Outcome.returned true obj ∧
      obj.GetFormat = ImageFormat.RGB ∧
      obj.GetSize = obj.GetWidth * obj.GetHeight * bytesPerPixel obj.GetFormat ∧
      obj.GetData.length = obj.GetWidth * obj.GetHeight * bytesPerPixel obj.GetFormat := by
  have hL : Load (Env.const 0) TGA.new (some sampleTruecolor) = Outcome.returned true
      { Data := [30, 20, 10], Size := 3, Width := 1, Height := 1,
        Format := ImageFormat.RGB } := by decide
  have hC := C3_size_and_format (Env.const 0) TGA.new sampleTruecolor _ hL
    (by decide) (by decide)
  exact ⟨_, hL, hC.2.1 (by decide), hC.2.2.2.1, hC.2.2.2.2⟩

/-! ### C4: the pixel size -/

theorem readInput_PixelSize (env : Env) (b : List Byte) :
    ((readInput env b).Head.color_map_length ≠ 0 →
      (readInput env b).PixelSize = (readInput env b).Head.color_map_entry_size / 8) ∧
    ((readInput env b).Head.color_map_length = 0 →
      (readInput env b).PixelSize = (readInput env b).Head.bits / 8) := by
  have e : (readInput env b).PixelSize
      = if (readInput env b).Head.color_map_length = 0 then (readInput env b).Head.bits / 8
        else (readInput env b).Head.color_map_entry_size / 8 := rfl
  constructor
  · intro h; rw [e, if_neg h]
  · intro h; rw [e, if_pos h]

/-- C4, as stated, fails: at `sampleStrayMapLength` the colour-map flag is 0 and
`bits / 8 = 3`, but the pixel size `Load` computes is 4, the colour-map entry
size in bytes, because `color_map_length` is not 0. -/
theorem C4_pixel_size_by_flag_counterexample :
    ¬ (∀ (env : Env) (b : List Byte), 18 ≤ b.length →
        ((readInput env b).Head.color_map_type = 1 →
          (readInput env b).PixelSize = (readInput env b).Head.color_map_entry_size / 8) ∧
        ((readInput env b).Head.color_map_type = 0 →
          (readInput env b).PixelSize = (readInput env b).Head.bits / 8)) := by
  intro h
  have h2 := (h (Env.const 0) sampleStrayMapLength (by decide)).2 (by decide)
  revert h2
  decide

/-- C4, amended: for every file, the pixel size `Load` computes is
`color_map_entry_size / 8` exactly when `color_map_length` is not 0, and
`bits / 8` exactly when `color_map_length` is 0; `color_map_type` plays no part. -/
theorem C4_pixel_size_by_length (env : Env) (b : List Byte) :
    ((readInput env b).Head.color_map_length ≠ 0 →
      (readInput env b).PixelSize = (readInput env b).Head.color_map_entry_size / 8) ∧
    ((readInput env b).Head.color_map_length = 0 →
      (readInput env b).PixelSize = (readInput env b).Head.bits / 8) := by
  have e : (readInput env b).PixelSize
      = if (readInput env b).Head.color_map_length = 0 then (readInput env b).Head.bits / 8
        else (readInput env b).Head.color_map_entry_size / 8 := rfl
  exact ⟨fun h => by rw [e, if_neg h], fun h => by rw [e, if_pos h]⟩

/-- C4 amended, at `sampleStrayMapLength` (length 1, entry size 32: pixel size 4)
and at `sampleTruecolor` (length 0, 24 bits: pixel size 3). -/
theorem C4_pixel_size_by_length_witness :
    (readInput (Env.const 0) sampleStrayMapLength).PixelSize = 4 ∧
    (readInput (Env.const 0) sampleTruecolor).PixelSize = 3 :=
  ⟨((C4_pixel_size_by_length (Env.const 0) sampleStrayMapLength).1 (by decide)).trans
      (by decide),
    ((C4_pixel_size_by_length (Env.const 0) sampleTruecolor).2 (by decide)).trans
      (by decide)⟩

/-! ### C5: uncompressed truecolor -/

theorem readInput_Buffer (env : Env) (b : List Byte) :
    (readInput env b).Buffer = memOf (pixelStream env b) env.Buffer := by
  have hBuf : (readInput env b).Buffer
      = ((colorMapRead env b).1.read env.Buffer (readInput env b).DataSize).2 := rfl
  rw [hBuf, pixelStream, IFStream.read]
  cases (colorMapRead env b).1.good with
  | true => simp
  | false =>
    funext p
    simp [memOf]

theorem memOf_getElem? (l : List Byte) (rest : Mem) (p : Nat) (h : p < l.length) :
    l[p]? = some (memOf l rest p) := by
  simp [memOf, h]

theorem memTake_getElem? (m : Mem) (n p : Nat) (h : p < n) :
    (memTake m n)[p]? = some (m p) := by
  simp [memTake, h]

theorem swapMem_of_ne (D : Mem) (a b p : Nat) (h1 : p ≠ a) (h2 : p ≠ b) :
    swapMem D a b p = D p := by
  simp [swapMem, h1, h2]

theorem swapMem_left (D : Mem) (a b : Nat) : swapMem D a b a = D b := by
  simp [swapMem]

theorem swapMem_right (D : Mem) (a b : Nat) : swapMem D a b b = D a := by
  unfold swapMem
  by_cases h : b = a
  · simp [h]
  · simp [h]

/-- The swap loop over `n` pixels of `E ≥ 3` bytes, started at pixel `j`: it
finishes, leaves the bytes before pixel `j` alone, and in every pixel from `j` on
exchanges offsets 0 and 2 and keeps the others. -/
theorem swapLoop_spec (E n : Nat) (hE : 3 ≤ E) (fuel j : Nat) (D : Mem)
    (hf : n * E ≤ fuel + j * E) :
    ∃ D2, swapLoop E (n * E) fuel (j * E) D = some D2 ∧
      (∀ p, p < j * E → D2 p = D p) ∧
      (∀ k, j ≤ k → k < n →
        D2 (k * E) = D (k * E + 2) ∧ D2 (k * E + 2) = D (k * E) ∧
        ∀ t, t < E → t ≠ 0 → t ≠ 2 → D2 (k * E + t) = D (k * E + t)) := by
  induction fuel generalizing j D with
  | zero =>
    have hlt : ¬ j * E < n * E := by omega
    refine ⟨D, by simp [swapLoop, hlt], fun _ _ => rfl, ?_⟩
    intro k hjk hkn
    have : j * E < n * E := Nat.mul_lt_mul_of_pos_right (by omega) (by omega)
    exact absurd this hlt
  | succ fuel ih =>
    by_cases hlt : j * E < n * E
    · have hs : (j + 1) * E = j * E + E := Nat.succ_mul j E
      obtain ⟨D2, hD2, hpre, hpix⟩ := ih (j + 1) (swapMem D (j * E) (j * E + 2)) (by omega)
      refine ⟨D2, ?_, ?_, ?_⟩
      · rw [swapLoop, if_pos hlt, ← hs]
        exact hD2
      · intro p hp
        rw [hpre p (by omega), swapMem_of_ne _ _ _ _ (by omega) (by omega)]
      · intro k hjk hkn
        rcases Nat.eq_or_lt_of_le hjk with hk | hk
        · subst hk
          refine ⟨?_, ?_, ?_⟩
          · rw [hpre _ (by omega), swapMem_left]
          · rw [hpre _ (by omega), swapMem_right]
          · intro t ht h0 h2
            rw [hpre _ (by omega), swapMem_of_ne _ _ _ _ (by omega) (by omega)]
        · have hge : (j + 1) * E ≤ k * E := Nat.mul_le_mul_right E hk
          obtain ⟨a1, a2, a3⟩ := hpix k hk hkn
          refine ⟨?_, ?_, ?_⟩
          · rw [a1, swapMem_of_ne _ _ _ _ (by omega) (by omega)]
          · rw [a2, swapMem_of_ne _ _ _ _ (by omega) (by omega)]
          · intro t ht h0 h2
            rw [a3 t ht h0 h2, swapMem_of_ne _ _ _ _ (by omega) (by omega)]
    · refine ⟨D, by simp [swapLoop, hlt], fun _ _ => rfl, ?_⟩
      intro k hjk hkn
      have : j * E < n * E := Nat.mul_lt_mul_of_pos_right (by omega) (by omega)
      exact absurd this hlt

theorem decodePixels_type2 (l : Locals) (D : Mem) (h : l.Head.image_type = 2) :
    decodePixels l D
      = swapLoop l.PixelSize l.ImageSize l.ImageSize 0 (copyMem l.Buffer l.ImageSize D) := by
  unfold decodePixels
  simp only [h]

/-- The storage at `Data` after the type-2 branch, for pixels of `E ≥ 3` bytes. -/
theorem type2_data (env : Env) (b : List Byte) (E n : Nat) (hE : 3 ≤ E)
    (htype : (readInput env b).Head.image_type = 2)
    (hPS : (readInput env b).PixelSize = E)
    (hIS : (readInput env b).ImageSize = n * E)
    (Data : Mem)
    (hdec : decodePixels (readInput env b) (freshData env (readInput env b).ImageSize)
      = some Data) :
    ∀ k, k < n →
      Data (k * E) = (readInput env b).Buffer (k * E + 2) ∧
      Data (k * E + 2) = (readInput env b).Buffer (k * E) ∧
      ∀ t, t < E → t ≠ 0 → t ≠ 2 → Data (k * E + t) = (readInput env b).Buffer (k * E + t) := by
  rw [decodePixels_type2 _ _ htype, hPS, hIS] at hdec
  obtain ⟨D2, hD2, _, hpix⟩ := swapLoop_spec E n hE (n * E) 0
    (copyMem (readInput env b).Buffer (n * E) (freshData env (n * E))) (by omega)
  rw [Nat.zero_mul, hdec] at hD2
  injection hD2 with hD2
  subst hD2
  intro k hk
  have hle : (k + 1) * E ≤ n * E := Nat.mul_le_mul_right E hk
  have hs : (k + 1) * E = k * E + E := Nat.succ_mul k E
  obtain ⟨a1, a2, a3⟩ := hpix k (Nat.zero_le k) hk
  refine ⟨?_, ?_, ?_⟩
  · rw [a1, copyMem, if_pos (by omega)]
  · rw [a2, copyMem, if_pos (by omega)]
  · intro t ht h0 h2
    rw [a3 t ht h0 h2, copyMem, if_pos (by omega)]

theorem u16_lt (field : Mem) : u16 field < 65536 := by
  have h0 := (field 0).isLt
  have h1 := (field 1).isLt
  unfold u16
  omega

theorem readInput_width_lt (env : Env) (b : List Byte) :
    (readInput env b).Head.width < 65536 := u16_lt _

theorem readInput_height_lt (env : Env) (b : List Byte) :
    (readInput env b).Head.height < 65536 := u16_lt _

/-- With 3 or 4 bytes per pixel, `new uint8_t[ImageSize]` succeeds only if the
`int` product `width * height` did not overflow. -/
theorem no_overflow_of_alloc (env : Env) (b : List Byte) (E : Nat) (hE : E = 3 ∨ E = 4)
    (hPS : (readInput env b).PixelSize = E)
    (hI : allocFails (readInput env b).ImageSize = false) :
    (readInput env b).Head.width * (readInput env b).Head.height < 2 ^ 31 := by
  have hw := readInput_width_lt env b
  have hh := readInput_height_lt env b
  have hwh : (readInput env b).Head.width * (readInput env b).Head.height < 65536 * 65536 :=
    Nat.mul_lt_mul'' hw hh
  have e : (readInput env b).ImageSize
      = (toSizeT (intMul (readInput env b).Head.width (readInput env b).Head.height)
          * (readInput env b).PixelSize) % 2 ^ 64 := rfl
  rw [e, hPS] at hI
  simp only [allocFails, decide_eq_false_iff_not, intMul, toSizeT] at hI
  by_contra hc
  generalize (readInput env b).Head.width * (readInput env b).Head.height = x at hI hwh hc
  have hx : x % 2 ^ 32 = x := Nat.mod_eq_of_lt (by omega)
  rw [hx, if_neg hc] at hI
  rcases hE with rfl | rfl
  · have e3 : (x + (2 ^ 64 - 2 ^ 32)) * 3 = (2 ^ 64 - 3 * 2 ^ 32 + 3 * x) + 2 ^ 64 * 2 := by
      omega
    rw [e3, Nat.add_mul_mod_self_left, Nat.mod_eq_of_lt (by omega)] at hI
    omega
  · have e4 : (x + (2 ^ 64 - 2 ^ 32)) * 4 = (2 ^ 64 - 4 * 2 ^ 32 + 4 * x) + 2 ^ 64 * 3 := by
      omega
    rw [e4, Nat.add_mul_mod_self_left, Nat.mod_eq_of_lt (by omega)] at hI
    omega

/-- For pixels of `E ≥ 3` bytes the swap loop over `n` pixels reaches only indices
`i` with `i + 2` inside the `n * E` bytes. -/
theorem swapIndices_in_bounds (E n : Nat) (hE : 3 ≤ E) (fuel j : Nat) :
    ∀ i ∈ swapIndices E (n * E) fuel (j * E), i + 2 < n * E := by
  induction fuel generalizing j with
  | zero => simp [swapIndices]
  | succ fuel ih =>
    rw [swapIndices]
    by_cases hlt : j * E < n * E
    · rw [if_pos hlt]
      have hs : (j + 1) * E = j * E + E := Nat.succ_mul j E
      have hjn : j < n := Nat.lt_of_mul_lt_mul_right hlt
      have hle : (j + 1) * E ≤ n * E := Nat.mul_le_mul_right E hjn
      intro i hi
      rcases List.mem_cons.mp hi with h | h
      · rw [h]; omega
      · rw [← hs] at h
        exact ih (j + 1) i h
    · rw [if_neg hlt]
      simp

/-- C5, as stated, fails.  At `sampleStrayMapTruecolor` (image type 2, colour-map
flag 0, 24 bits, one pixel, six bytes of pixel stream) the colour-map length 1
makes the pixel size 4: the output buffer has 4 bytes, `30, 20, 10, 40`, not
`N = 3`.  At `sampleExactTruecolor`, which holds exactly its `N = 3` pixel bytes
`10, 20, 30`, only one of them is read into `Buffer` and the output is `7, 7, 10`
where the storage held 7. -/
theorem C5_truecolor_counterexample :
    (readInput (Env.const 0) sampleStrayMapTruecolor).Head.image_type = 2 ∧
    (readInput (Env.const 0) sampleStrayMapTruecolor).Head.color_map_type = 0 ∧
    (readInput (Env.const 0) sampleStrayMapTruecolor).Head.bits = 24 ∧
    (readInput (Env.const 0) sampleStrayMapTruecolor).Head.width = 1 ∧
    (readInput (Env.const 0) sampleStrayMapTruecolor).Head.height = 1 ∧
    pixelOffset (readInput (Env.const 0) sampleStrayMapTruecolor).Head + 1 * 1 * 3
      ≤ sampleStrayMapTruecolor.length ∧
    Load (Env.const 0) TGA.new (some sampleStrayMapTruecolor)
      = Outcome.returned true
          { Data := [30, 20, 10, 40], Size := 4, Width := 1, Height := 1,
            Format := ImageFormat.RGBA } ∧
    Load (Env.withBuffer (fun _ => 7)) TGA.new (some sampleExactTruecolor)
      = Outcome.returned true
          { Data := [7, 7, 10], Size := 3, Width := 1, Height := 1,
            Format := ImageFormat.RGB } ∧
    ¬ (∀ (env : Env) (self : TGA) (b : List Byte),
        (readInput env b).Head.image_type = 2 →
        (readInput env b).Head.color_map_type = 0 →
        (readInput env b).Head.bits = 24 →
        pixelOffset (readInput env b).Head
          + (readInput env b).Head.width * (readInput env b).Head.height * 3 ≤ b.length →
        ∃ obj, Load env self (some b) = Outcome.returned true obj ∧
          obj.GetData.length
            = (readInput env b).Head.width * (readInput env b).Head.height * 3 ∧
          ∀ k, k < (readInput env b).Head.width * (readInput env b).Head.height →
            obj.GetData[3 * k]? = b[pixelOffset (readInput env b).Head + 3 * k + 2]? ∧
            obj.GetData[3 * k + 1]? = b[pixelOffset (readInput env b).Head + 3 * k + 1]? ∧
            obj.GetData[3 * k + 2]? = b[pixelOffset (readInput env b).Head + 3 * k]?) := by
  have hL : Load (Env.const 0) TGA.new (some sampleStrayMapTruecolor)
      = Outcome.returned true
          { Data := [30, 20, 10, 40], Size := 4, Width := 1, Height := 1,
            Format := ImageFormat.RGBA } := by decide
  refine ⟨?_, ?_, ?_, ?_, ?_, ?_, hL, ?_, ?_⟩
  iterate 7 decide
  intro h
  obtain ⟨obj, hobj, hlen, _⟩ := h (Env.const 0) TGA.new sampleStrayMapTruecolor
    (by decide) (by decide) (by decide) (by decide)
  rw [hL] at hobj
  injection hobj with _ hobj
  subst hobj
  revert hlen
  decide

/-- C5, amended: for image type 2 with `color_map_length = 0` (whatever the
colour-map flag), `bits = 8 * E` with `E = 3` (24 bits) or `E = 4` (32 bits), and
a pixel stream `in` of which `Load` reads at least `N = width * height * E` bytes
into `Buffer`: whenever `Load` returns, the output buffer has length `N` and for
every pixel `k < width * height`, `out[E*k] = in[E*k+2]`, `out[E*k+1] = in[E*k+1]`,
`out[E*k+2] = in[E*k]`, and for `E = 4` `out[4k+3] = in[4k+3]`; the branch then
reads `Buffer` only below the bytes read from the file and touches `Data` only
inside the array.  `Load` does return (with `true`) when the file has between 20
and `2^63` bytes and `width * height < 2^31`, storage being available. -/
theorem C5_truecolor_swap (env : Env) (self : TGA) (b : List Byte) (E : Nat)
    (hE : E = 3 ∨ E = 4)
    (htype : (readInput env b).Head.image_type = 2)
    (hcml : (readInput env b).Head.color_map_length = 0)
    (hbits : (readInput env b).Head.bits = 8 * E)
    (hN : (readInput env b).Head.width * (readInput env b).Head.height * E
      ≤ (pixelStream env b).length) :
    (20 ≤ b.length → b.length < 2 ^ 63 →
      (readInput env b).Head.width * (readInput env b).Head.height < 2 ^ 31 →
      ∃ obj, Load env self (some b) = Outcome.returned true obj) ∧
    (∀ ret obj, Load env self (some b) = Outcome.returned ret obj →
      obj.GetData.length = (readInput env b).Head.width * (readInput env b).Head.height * E ∧
      ∀ k, k < (readInput env b).Head.width * (readInput env b).Head.height →
        ∃ x0 x1 x2,
          (pixelStream env b)[E * k]? = some x0 ∧
          (pixelStream env b)[E * k + 1]? = some x1 ∧
          (pixelStream env b)[E * k + 2]? = some x2 ∧
          obj.GetData[E * k]? = some x2 ∧
          obj.GetData[E * k + 1]? = some x1 ∧
          obj.GetData[E * k + 2]? = some x0 ∧
          (E = 4 → ∃ x3, (pixelStream env b)[E * k + 3]? = some x3 ∧
            obj.GetData[E * k + 3]? = some x3)) ∧
    (∀ ret obj, Load env self (some b) = Outcome.returned ret obj →
      (readInput env b).ImageSize ≤ (pixelStream env b).length ∧
      ∀ i ∈ swapIndices (readInput env b).PixelSize (readInput env b).ImageSize
        (readInput env b).ImageSize 0, i + 2 < (readInput env b).ImageSize) := by
  have hPS : (readInput env b).PixelSize = E := by
    rw [(readInput_PixelSize env b).2 hcml, hbits]
    exact Nat.mul_div_cancel_left E (by decide)
  have hE3 : 3 ≤ E := by omega
  refine ⟨fun h20 hlt hwh => ?_, ?_, ?_⟩
  · obtain ⟨Data, _, hr⟩ := Load_returns env self b h20 hlt hwh
    exact ⟨_, hr⟩
  · intro ret obj hr
    rcases Load_some env self b with ⟨ht, _⟩ | ⟨_, hI, Data, hdec, hr2⟩
    · rw [ht] at hr; exact absurd hr (by simp)
    have hwh := no_overflow_of_alloc env b E hE hPS hI
    have hIS : (readInput env b).ImageSize
        = (readInput env b).Head.width * (readInput env b).Head.height * E := by
      rw [readInput_ImageSize env b hwh, hPS]
    rw [hr2] at hr
    injection hr with _ hobj
    subst hobj
    simp only [TGA.GetData]
    rw [hIS]
    refine ⟨memTake_length _ _, ?_⟩
    intro k hk
    have hd := type2_data env b E _ hE3 htype hPS hIS Data hdec k hk
    rw [readInput_Buffer] at hd
    obtain ⟨d0, d2, dt⟩ := hd
    have hle : (k + 1) * E
        ≤ (readInput env b).Head.width * (readInput env b).Head.height * E :=
      Nat.mul_le_mul_right E hk
    have hs : (k + 1) * E = k * E + E := Nat.succ_mul k E
    have hc : E * k = k * E := Nat.mul_comm E k
    rw [hc]
    refine ⟨_, _, _,
      memOf_getElem? _ env.Buffer _ (by omega),
      memOf_getElem? _ env.Buffer _ (by omega),
      memOf_getElem? _ env.Buffer _ (by omega), ?_, ?_, ?_, ?_⟩
    · rw [memTake_getElem? _ _ _ (by omega), d0]
    · rw [memTake_getElem? _ _ _ (by omega), dt 1 (by omega) (by omega) (by omega)]
    · rw [memTake_getElem? _ _ _ (by omega), d2]
    · intro h4
      refine ⟨_, memOf_getElem? _ env.Buffer _ (by omega), ?_⟩
      rw [memTake_getElem? _ _ _ (by omega), dt 3 (by omega) (by omega) (by omega)]
  · intro ret obj hr
    rcases Load_some env self b with ⟨ht, _⟩ | ⟨_, hI, _, _, _⟩
    · rw [ht] at hr; exact absurd hr (by simp)
    have hwh := no_overflow_of_alloc env b E hE hPS hI
    have hIS : (readInput env b).ImageSize
        = (readInput env b).Head.width * (readInput env b).Head.height * E := by
      rw [readInput_ImageSize env b hwh, hPS]
    rw [hPS, hIS]
    refine ⟨hN, ?_⟩
    have hb := swapIndices_in_bounds E
      ((readInput env b).Head.width * (readInput env b).Head.height) hE3
      ((readInput env b).Head.width * (readInput env b).Head.height * E) 0
    rw [Nat.zero_mul] at hb
    exact hb

/-- C5 amended, at `sampleTruecolor` (one 24-bit pixel `10, 20, 30`): `Load`
returns the buffer `30, 20, 10`. -/
theorem C5_truecolor_swap_witness :
    pixelStream (Env.const 0) sampleTruecolor = [10, 20, 30] ∧
    ∃ obj, Load (Env.const 0) TGA.new (some sampleTruecolor) = Outcome.returned true obj ∧
      obj.GetData.length = 3 ∧
      obj.GetData[0]? = some 30 ∧ obj.GetData[1]? = some 20 ∧ obj.GetData[2]? = some 10 := by
  have hC := C5_truecolor_swap (Env.const 0) TGA.new sampleTruecolor 3 (Or.inl rfl)
    (by decide) (by decide) (by decide) (by decide)
  have hs : pixelStream (Env.const 0) sampleTruecolor = [10, 20, 30] := by decide
  obtain ⟨obj, hobj⟩ := hC.1 (by decide) (by decide) (by decide)
  obtain ⟨hlen, hk⟩ := hC.2.1 true obj hobj
  obtain ⟨x0, x1, x2, e0, e1, e2, o0, o1, o2, _⟩ := hk 0 (by decide)
  rw [hs] at e0 e1 e2
  have h0 : x0 = 10 := by simpa using e0.symm
  have h1 : x1 = 20 := by simpa using e1.symm
  have h2 : x2 = 30 := by simpa using e2.symm
  subst h0 h1 h2
  exact ⟨hs, obj, hobj, hlen.trans (by decide), o0, o1, o2⟩

/-! ### C6: paletted expansion -/

theorem chunks_length {β : Type} (f : Nat → List β) (E : Nat) (hf : ∀ j, (f j).length = E)
    (n : Nat) : ((List.range n).flatMap f).length = n * E := by
  induction n with
  | zero => simp
  | succ n ih =>
    rw [List.range_succ, List.flatMap_append, List.length_append, ih, Nat.succ_mul]
    simp [hf]

theorem chunks_getElem? {β : Type} (f : Nat → List β) (E : Nat)
    (hf : ∀ j, (f j).length = E) (n i t : Nat) (hi : i < n) (ht : t < E) :
    ((List.range n).flatMap f)[i * E + t]? = (f i)[t]? := by
  induction n with
  | zero => omega
  | succ n ih =>
    rw [List.range_succ, List.flatMap_append]
    have hlen := chunks_length f E hf n
    rcases Nat.eq_or_lt_of_le (Nat.le_of_lt_succ hi) with h | h
    · subst h
      rw [List.getElem?_append_right (by omega), hlen]
      simp
    · have hle : (i + 1) * E ≤ n * E := Nat.mul_le_mul_right E h
      have hs : (i + 1) * E = i * E + E := Nat.succ_mul i E
      rw [List.getElem?_append_left (by omega)]
      exact ih h

theorem RGBPalettedLoop_eq (idx : Nat → Nat) (cm : Mem) (n i : Nat) (out : List Byte) :
    RGBPalettedLoop idx cm n i out
      = out ++ (List.range n).flatMap
          (fun j => [cm (idx (i + j) * 3 + 2), cm (idx (i + j) * 3 + 1), cm (idx (i + j) * 3)]) := by
  induction n generalizing i out with
  | zero => simp [RGBPalettedLoop]
  | succ n ih =>
    have e : ∀ j, i + 1 + j = i + (j + 1) := fun j => by omega
    rw [RGBPalettedLoop, ih, range_succ_flatMap]
    simp only [e, Nat.add_zero, List.append_assoc]

theorem RGBAPalettedLoop_eq (idx : Nat → Nat) (cm : Mem) (n i : Nat) (out : List Byte) :
    RGBAPalettedLoop idx cm n i out
      = out ++ (List.range n).flatMap
          (fun j => [cm (idx (i + j) * 4 + 2), cm (idx (i + j) * 4 + 1), cm (idx (i + j) * 4),
            cm (idx (i + j) * 4 + 3)]) := by
  induction n generalizing i out with
  | zero => simp [RGBAPalettedLoop]
  | succ n ih =>
    have e : ∀ j, i + 1 + j = i + (j + 1) := fun j => by omega
    rw [RGBAPalettedLoop, ih, range_succ_flatMap]
    simp only [e, Nat.add_zero, List.append_assoc]

theorem RGBPaletted_spec (idx : Nat → Nat) (cm : Mem) (n : Nat) :
    PalettedSpec 3 (RGBPaletted idx cm n) idx cm n := by
  have hf : ∀ j, ([cm (idx (0 + j) * 3 + 2), cm (idx (0 + j) * 3 + 1),
      cm (idx (0 + j) * 3)] : List Byte).length = 3 := fun _ => rfl
  rw [RGBPaletted, RGBPalettedLoop_eq, List.nil_append]
  refine ⟨chunks_length _ 3 hf n, fun i hi => ?_⟩
  have hc : 3 * i = i * 3 := Nat.mul_comm 3 i
  have hd : 3 * idx i = idx i * 3 := Nat.mul_comm 3 (idx i)
  rw [hc, hd]
  refine ⟨?_, ?_, ?_, fun h => absurd h (by decide)⟩
  · have h := chunks_getElem? _ 3 hf n i 0 hi (by decide)
    simpa using h
  · have h := chunks_getElem? _ 3 hf n i 1 hi (by decide)
    simpa using h
  · have h := chunks_getElem? _ 3 hf n i 2 hi (by decide)
    simpa using h

theorem RGBAPaletted_spec (idx : Nat → Nat) (cm : Mem) (n : Nat) :
    PalettedSpec 4 (RGBAPaletted idx cm n) idx cm n := by
  have hf : ∀ j, ([cm (idx (0 + j) * 4 + 2), cm (idx (0 + j) * 4 + 1),
      cm (idx (0 + j) * 4), cm (idx (0 + j) * 4 + 3)] : List Byte).length = 4 := fun _ => rfl
  rw [RGBAPaletted, RGBAPalettedLoop_eq, List.nil_append]
  refine ⟨chunks_length _ 4 hf n, fun i hi => ?_⟩
  have hc : 4 * i = i * 4 := Nat.mul_comm 4 i
  have hd : 4 * idx i = idx i * 4 := Nat.mul_comm 4 (idx i)
  rw [hc, hd]
  refine ⟨?_, ?_, ?_, fun _ => ?_⟩
  · have h := chunks_getElem? _ 4 hf n i 0 hi (by decide)
    simpa using h
  · have h := chunks_getElem? _ 4 hf n i 1 hi (by decide)
    simpa using h
  · have h := chunks_getElem? _ 4 hf n i 2 hi (by decide)
    simpa using h
  · have h := chunks_getElem? _ 4 hf n i 3 hi (by decide)
    simpa using h

/-- C6: for every index storage `InBuffer`, every colour-map storage `ColorMap`
and every pixel count `n`, with one-byte indices `idx i = InBuffer[i]` or two-byte
little-endian indices `idx i = InBuffer[2i] + 256 * InBuffer[2i+1]`:
`RGBPaletted` (`E = 3`) and `RGBAPaletted` (`E = 4`) write exactly `n * E` bytes,
with `out[E*i] = map[E*idx i + 2]`, `out[E*i+1] = map[E*idx i + 1]`,
`out[E*i+2] = map[E*idx i]` and, for `E = 4`, `out[E*i+3] = map[E*idx i + 3]`.
Index 2 with palette entry 2 equal to `1, 2, 3` yields `3, 2, 1`. -/
theorem C6_paletted_expansion (InBuffer ColorMap : Mem) (n : Nat) :
    PalettedSpec 3 (RGBPaletted (index8 InBuffer) ColorMap n)
      (fun i => (InBuffer i).val) ColorMap n ∧
    PalettedSpec 3 (RGBPaletted (index16 InBuffer) ColorMap n)
      (fun i => (InBuffer (2 * i)).val + 256 * (InBuffer (2 * i + 1)).val) ColorMap n ∧
    PalettedSpec 4 (RGBAPaletted (index8 InBuffer) ColorMap n)
      (fun i => (InBuffer i).val) ColorMap n ∧
    PalettedSpec 4 (RGBAPaletted (index16 InBuffer) ColorMap n)
      (fun i => (InBuffer (2 * i)).val + 256 * (InBuffer (2 * i + 1)).val) ColorMap n ∧
    RGBPaletted (index8 (memOf [2] zeroMem)) (memOf [0, 0, 0, 0, 0, 0, 1, 2, 3] zeroMem) 1
      = [3, 2, 1] :=
  ⟨RGBPaletted_spec _ _ _, RGBPaletted_spec _ _ _, RGBAPaletted_spec _ _ _,
    RGBAPaletted_spec _ _ _, by decide⟩

/-- C6 at two one-byte indices `1, 0` into a palette of two 4-byte entries. -/
theorem C6_paletted_expansion_witness :
    (RGBAPaletted (index8 (memOf [1, 0] zeroMem))
      (memOf [1, 2, 3, 4, 5, 6, 7, 8] zeroMem) 2).length = 8 ∧
    (RGBAPaletted (index8 (memOf [1, 0] zeroMem))
      (memOf [1, 2, 3, 4, 5, 6, 7, 8] zeroMem) 2)[0]? = some 7 ∧
    (RGBAPaletted (index8 (memOf [1, 0] zeroMem))
      (memOf [1, 2, 3, 4, 5, 6, 7, 8] zeroMem) 2)[7]? = some 4 := by
  have hC := (C6_paletted_expansion (memOf [1, 0] zeroMem)
    (memOf [1, 2, 3, 4, 5, 6, 7, 8] zeroMem) 2).2.2.1
  refine ⟨hC.1, ?_, ?_⟩
  · exact (hC.2 0 (by decide)).1.trans (by decide)
  · exact ((hC.2 1 (by decide)).2.2.2 rfl).trans (by decide)

/-! ### Packet streams -/

theorem ReadsAt_memOf (l extra : List Byte) (rest : Mem) :
    ReadsAt (memOf (l ++ extra) rest) 0 l := by
  intro j hj
  have h2 : j < (l ++ extra).length := by
    rw [List.length_append]; omega
  rw [Nat.zero_add, ← memOf_getElem? (l ++ extra) rest j h2, List.getElem?_append_left hj]

theorem ReadsAt_left (m : Mem) (p : Nat) (a b : List Byte) (h : ReadsAt m p (a ++ b)) :
    ReadsAt m p a := by
  intro j hj
  rw [← h j (by rw [List.length_append]; omega), List.getElem?_append_left hj]

theorem ReadsAt_right (m : Mem) (p : Nat) (a b : List Byte) (h : ReadsAt m p (a ++ b)) :
    ReadsAt m (p + a.length) b := by
  intro j hj
  have h2 := h (a.length + j) (by rw [List.length_append]; omega)
  rw [List.getElem?_append_right (by omega)] at h2
  rw [Nat.add_assoc, ← h2]
  congr 1
  omega

theorem ReadsAt_head (m : Mem) (p : Nat) (x : Byte) (l : List Byte)
    (h : ReadsAt m p (x :: l)) : m p = x := by
  have h0 := h 0 (by simp)
  simpa using h0.symm

theorem ReadsAt_tail (m : Mem) (p : Nat) (x : Byte) (l : List Byte)
    (h : ReadsAt m p (x :: l)) : ReadsAt m (p + 1) l :=
  ReadsAt_right m p [x] l h

theorem flatMap_enc_length {α : Type} (enc : α → List Byte) (k : Nat)
    (henc : ∀ x, (enc x).length = k) (pxs : List α) :
    (pxs.flatMap enc).length = k * pxs.length := by
  induction pxs with
  | nil => simp
  | cons x pxs ih =>
    rw [List.flatMap_cons, List.length_append, ih, henc, List.length_cons, Nat.mul_succ]
    omega

/-- The output of a raw packet: the pixels of the packet, decoded in order. -/
theorem raw_output {α : Type} (k : Nat) (enc dec : α → List Byte) (eRaw : Mem → Nat → List Byte)
    (henc : ∀ x, (enc x).length = k)
    (hRaw : ∀ m q x, ReadsAt m q (enc x) → eRaw m q = dec x)
    (m : Mem) (pxs : List α) (q : Nat) (h : ReadsAt m q (pxs.flatMap enc)) :
    (List.range pxs.length).flatMap (fun j => eRaw m (q + k * j)) = pxs.flatMap dec := by
  induction pxs generalizing q with
  | nil => simp
  | cons x pxs ih =>
    rw [List.flatMap_cons] at h
    have h1 := hRaw m q x (ReadsAt_left _ _ _ _ h)
    have h2 := ReadsAt_right _ _ _ _ h
    rw [henc] at h2
    have e : ∀ j, q + k * (j + 1) = q + k + k * j := fun j => by
      rw [Nat.mul_succ]; omega
    rw [List.length_cons, range_succ_flatMap, List.flatMap_cons]
    simp only [e, Nat.mul_zero, Nat.add_zero]
    rw [h1, ih (q + k) h2]

theorem header_run : ∀ c : Fin 128,
    ((byteOf (0x80 ||| c.val)).val &&& 0x7F) + 1 = c.val + 1 ∧
      (byteOf (0x80 ||| c.val)).val &&& 0x80 ≠ 0 := by
  decide

theorem header_raw : ∀ c : Fin 128,
    ((byteOf c.val).val &&& 0x7F) + 1 = c.val + 1 ∧ (byteOf c.val).val &&& 0x80 = 0 := by
  decide

/-- The packet loop on a stream of well-formed packets whose run lengths bring
the pixel counter exactly to `Size`: it consumes exactly the packets' bytes and
appends their expansions in order. -/
theorem rleLoop_packets {α : Type} (k : Nat) (enc dec : α → List Byte)
    (eRun eRaw : Mem → Nat → List Byte)
    (henc : ∀ x, (enc x).length = k)
    (hRun : ∀ m q x, ReadsAt m q (enc x) → eRun m q = dec x)
    (hRaw : ∀ m q x, ReadsAt m q (enc x) → eRaw m q = dec x)
    (m : Mem) (Size : Nat) (ps : List (Packet α)) (hwf : ∀ pk ∈ ps, pk.WellFormed)
    (fuel i p : Nat) (out : List Byte) (hfuel : ps.length ≤ fuel)
    (hsum : i + totalCount ps = Size) (hm : ReadsAt m p (encodeAll enc ps)) :
    rleLoop k eRun eRaw m Size fuel i p out
      = some (p + (encodeAll enc ps).length, out ++ expandAll dec ps) := by
  induction ps generalizing fuel i p out with
  | nil =>
    have hi : ¬ i < Size := by
      simp [totalCount] at hsum
      omega
    cases fuel <;> simp [rleLoop, hi, encodeAll, expandAll]
  | cons pk ps ih =>
    obtain ⟨fuel, rfl⟩ : ∃ f, fuel = f + 1 := ⟨fuel - 1, by simp at hfuel; omega⟩
    have hwfpk := hwf pk (List.mem_cons_self _ _)
    have hwfps : ∀ q ∈ ps, q.WellFormed := fun q hq => hwf q (List.mem_cons_of_mem _ hq)
    have hfuel2 : ps.length ≤ fuel := by simp at hfuel; omega
    have htot : totalCount (pk :: ps) = pk.count + totalCount ps := by
      simp [totalCount]
    have hi : i < Size := by
      have := hwfpk.1
      omega
    have henc2 : encodeAll enc (pk :: ps) = Packet.encode enc pk ++ encodeAll enc ps := by
      simp [encodeAll]
    have hexp2 : expandAll dec (pk :: ps) = Packet.expand dec pk ++ expandAll dec ps := by
      simp [expandAll]
    rw [henc2] at hm ⊢
    have hm1 := ReadsAt_left _ _ _ _ hm
    have hm2 := ReadsAt_right _ _ _ _ hm
    rw [rleLoop, if_pos hi, hexp2]
    cases pk with
    | run n px =>
      have hn : 1 ≤ n ∧ n ≤ 128 := hwfpk
      have hhead : m p = byteOf (0x80 ||| (n - 1)) := ReadsAt_head _ _ _ _ hm1
      have hpx : ReadsAt m (p + 1) (enc px) := ReadsAt_tail _ _ _ _ hm1
      obtain ⟨hc, hb⟩ := header_run ⟨n - 1, by omega⟩
      simp only at hc hb
      have hc2 : ((byteOf (0x80 ||| (n - 1))).val &&& 0x7F) + 1 = n := by omega
      have hlen : (Packet.encode enc (Packet.run n px)).length = 1 + k := by
        simp [Packet.encode, henc]; omega
      rw [hlen] at hm2
      simp only [hhead, hc2, hb, ne_eq, not_false_eq_true, if_true]
      rw [hRun m (p + 1) px hpx]
      rw [ih hwfps fuel (i + n) (p + 1 + k) _ hfuel2
        (by simp only [Packet.count] at htot; omega) (by rw [Nat.add_assoc]; exact hm2)]
      simp only [Packet.expand, List.length_append, hlen, List.append_assoc, Option.some.injEq,
        Prod.mk.injEq, and_true]
      omega
    | raw pxs =>
      have hn : 1 ≤ pxs.length ∧ pxs.length ≤ 128 := hwfpk
      have hhead : m p = byteOf (pxs.length - 1) := ReadsAt_head _ _ _ _ hm1
      have hpx : ReadsAt m (p + 1) (pxs.flatMap enc) := ReadsAt_tail _ _ _ _ hm1
      obtain ⟨hc, hb⟩ := header_raw ⟨pxs.length - 1, by omega⟩
      simp only at hc hb
      have hc2 : ((byteOf (pxs.length - 1)).val &&& 0x7F) + 1 = pxs.length := by omega
      have hlen : (Packet.encode enc (Packet.raw pxs)).length = 1 + k * pxs.length := by
        simp [Packet.encode, flatMap_enc_length enc k henc]; omega
      rw [hlen] at hm2
      simp only [hhead, hc2, hb, ne_eq, not_true_eq_false, if_false]
      rw [raw_output k enc dec eRaw henc hRaw m pxs (p + 1) hpx]
      rw [ih hwfps fuel (i + pxs.length) (p + 1 + k * pxs.length) _ hfuel2
        (by simp only [Packet.count] at htot; omega) (by rw [Nat.add_assoc]; exact hm2)]
      simp only [Packet.expand, List.length_append, hlen, List.append_assoc, Option.some.injEq,
        Prod.mk.injEq, and_true]
      omega

theorem length_le_totalCount {α : Type} (ps : List (Packet α))
    (hwf : ∀ pk ∈ ps, pk.WellFormed) : ps.length ≤ totalCount ps := by
  induction ps with
  | nil => simp [totalCount]
  | cons pk ps ih =>
    have h1 := (hwf pk (List.mem_cons_self _ _)).1
    have h2 := ih (fun q hq => hwf q (List.mem_cons_of_mem _ hq))
    simp only [totalCount, List.map_cons, List.sum_cons, List.length_cons] at h2 ⊢
    omega

theorem flatten_replicate_length (n : Nat) (l : List Byte) :
    (List.replicate n l).flatten.length = n * l.length := by
  induction n with
  | zero => simp
  | succ n ih =>
    rw [List.replicate_succ, List.flatten_cons, List.length_append, ih, Nat.succ_mul]
    omega

theorem expandAll_length {α : Type} (dec : α → List Byte) (k : Nat)
    (hdec : ∀ x, (dec x).length = k) (ps : List (Packet α)) :
    (expandAll dec ps).length = totalCount ps * k := by
  induction ps with
  | nil => simp [expandAll, totalCount]
  | cons pk ps ih =>
    have e1 : expandAll dec (pk :: ps) = Packet.expand dec pk ++ expandAll dec ps := by
      simp [expandAll]
    have e2 : totalCount (pk :: ps) = pk.count + totalCount ps := by
      simp [totalCount]
    rw [e1, e2, List.length_append, ih, Nat.add_mul]
    congr 1
    cases pk with
    | run n px => simp [Packet.expand, Packet.count, flatten_replicate_length, hdec]
    | raw pxs =>
      simp only [Packet.expand, Packet.count]
      rw [flatMap_enc_length dec k hdec, Nat.mul_comm]

/-! ### The pixel word of `RGBACompressed` -/

theorem or_shift_eq_add (r g b a : Nat) (hr : r < 256) (hg : g < 256) (hb : b < 256) :
    r ||| (g <<< 8) ||| (b <<< 16) ||| (a <<< 24)
      = r + g * 2 ^ 8 + b * 2 ^ 16 + a * 2 ^ 24 := by
  simp only [Nat.shiftLeft_eq]
  have h1 : r ||| g * 2 ^ 8 = r + g * 2 ^ 8 := by
    rw [Nat.or_comm, Nat.mul_comm g, ← Nat.mul_add_lt_is_or (by omega) g]
    omega
  have h2 : r + g * 2 ^ 8 ||| b * 2 ^ 16 = r + g * 2 ^ 8 + b * 2 ^ 16 := by
    rw [Nat.or_comm, Nat.mul_comm b, ← Nat.mul_add_lt_is_or (by omega) b]
    omega
  have h3 : r + g * 2 ^ 8 + b * 2 ^ 16 ||| a * 2 ^ 24
      = r + g * 2 ^ 8 + b * 2 ^ 16 + a * 2 ^ 24 := by
    rw [Nat.or_comm, Nat.mul_comm a, ← Nat.mul_add_lt_is_or (by omega) a]
    omega
  rw [h1, h2, h3]

/-- Packing a pixel into the 32-bit word and copying the word out gives the four
channel bytes `R, G, B, A` unchanged. -/
theorem pixBytes_packPix (r g b a : Byte) :
    pixBytes (packPix r.val g.val b.val a.val) = [r, g, b, a] := by
  have hr := r.isLt
  have hg := g.isLt
  have hb := b.isLt
  have ha := a.isLt
  unfold pixBytes packPix
  rw [or_shift_eq_add _ _ _ _ hr hg hb]
  simp only [Nat.shiftRight_eq_div_pow, byteOf]
  refine List.cons_eq_cons.mpr ⟨Fin.ext ?_, List.cons_eq_cons.mpr ⟨Fin.ext ?_,
    List.cons_eq_cons.mpr ⟨Fin.ext ?_, List.cons_eq_cons.mpr ⟨Fin.ext ?_, rfl⟩⟩⟩⟩ <;>
  simp only <;> omega

/-! ### What the decoders emit for one pixel of the stream -/

theorem emit8_mono (m : Mem) (q : Nat) (v : Byte) (h : ReadsAt m q (mono v)) :
    emit8 m q = mono v := by
  have h0 := ReadsAt_head _ _ _ _ h
  simp [emit8, mono, h0]

theorem emit24_rgb (m : Mem) (q : Nat) (px : Byte × Byte × Byte) (h : ReadsAt m q (bgr px)) :
    emit24 m q = rgb px := by
  have h0 := ReadsAt_head _ _ _ _ h
  have t1 := ReadsAt_tail _ _ _ _ h
  have h1 := ReadsAt_head _ _ _ _ t1
  have t2 := ReadsAt_tail _ _ _ _ t1
  have h2 := ReadsAt_head _ _ _ _ t2
  simp only [emit24, rgb, h0, h1, h2]

theorem emit32_rgba (m : Mem) (q : Nat) (px : Byte × Byte × Byte × Byte)
    (h : ReadsAt m q (bgra px)) : emit32 m q = rgba px := by
  have h0 := ReadsAt_head _ _ _ _ h
  have t1 := ReadsAt_tail _ _ _ _ h
  have h1 := ReadsAt_head _ _ _ _ t1
  have t2 := ReadsAt_tail _ _ _ _ t1
  have h2 := ReadsAt_head _ _ _ _ t2
  have t3 := ReadsAt_tail _ _ _ _ t2
  have h3 := ReadsAt_head _ _ _ _ t3
  simp only [emit32, rgba, h0, h1, h2, h3]

theorem emitPix32_rgba (m : Mem) (q : Nat) (px : Byte × Byte × Byte × Byte)
    (h : ReadsAt m q (bgra px)) : emitPix32 m q = rgba px := by
  have h0 := ReadsAt_head _ _ _ _ h
  have t1 := ReadsAt_tail _ _ _ _ h
  have h1 := ReadsAt_head _ _ _ _ t1
  have t2 := ReadsAt_tail _ _ _ _ t1
  have h2 := ReadsAt_head _ _ _ _ t2
  have t3 := ReadsAt_tail _ _ _ _ t2
  have h3 := ReadsAt_head _ _ _ _ t3
  simp only [emitPix32, rgba, h0, h1, h2, h3, pixBytes_packPix]

/-! ### The three decoders on packet streams -/

theorem MonochromeCompressed_packets (ps : List (Packet Byte))
    (hwf : ∀ pk ∈ ps, pk.WellFormed) (extra : List Byte) (rest : Mem) :
    MonochromeCompressed (memOf (encodeAll mono ps ++ extra) rest) (totalCount ps)
      = some ((encodeAll mono ps).length, expandAll mono ps) := by
  rw [MonochromeCompressed, MonochromeCompressedLoop_eq,
    rleLoop_packets 1 mono mono emit8 emit8 (fun _ => rfl) emit8_mono emit8_mono _ _ ps hwf
      _ 0 0 [] (length_le_totalCount ps hwf) (Nat.zero_add _) (ReadsAt_memOf _ _ _)]
  simp

theorem RGBCompressed_packets (ps : List (Packet (Byte × Byte × Byte)))
    (hwf : ∀ pk ∈ ps, pk.WellFormed) (extra : List Byte) (rest : Mem) :
    RGBCompressed (memOf (encodeAll bgr ps ++ extra) rest) (totalCount ps)
      = some ((encodeAll bgr ps).length, expandAll rgb ps) := by
  rw [RGBCompressed, RGBCompressedLoop_eq,
    rleLoop_packets 3 bgr rgb emit24 emit24 (fun _ => rfl) emit24_rgb emit24_rgb _ _ ps hwf
      _ 0 0 [] (length_le_totalCount ps hwf) (Nat.zero_add _) (ReadsAt_memOf _ _ _)]
  simp

theorem RGBACompressed_packets (ps : List (Packet (Byte × Byte × Byte × Byte)))
    (hwf : ∀ pk ∈ ps, pk.WellFormed) (extra : List Byte) (rest : Mem) :
    RGBACompressed (memOf (encodeAll bgra ps ++ extra) rest) (totalCount ps)
      = some ((encodeAll bgra ps).length, expandAll rgba ps) := by
  rw [RGBACompressed, RGBACompressedLoop_eq,
    rleLoop_packets 4 bgra rgba emitPix32 emit32 (fun _ => rfl) emitPix32_rgba emit32_rgba
      _ _ ps hwf _ 0 0 [] (length_le_totalCount ps hwf) (Nat.zero_add _)
      (ReadsAt_memOf _ _ _)]
  simp

theorem encode_header {α : Type} (enc : α → List Byte) (pk : Packet α)
    (hwf : pk.WellFormed) :
    ∃ h tl, Packet.encode enc pk = h :: tl ∧ (h.val &&& 0x7F) + 1 = pk.count := by
  cases pk with
  | run n px =>
    have hn : 1 ≤ n ∧ n ≤ 128 := hwf
    obtain ⟨hc, _⟩ := header_run ⟨n - 1, by omega⟩
    simp only at hc
    exact ⟨_, _, rfl, by simp only [Packet.count]; omega⟩
  | raw pxs =>
    have hn : 1 ≤ pxs.length ∧ pxs.length ≤ 128 := hwf
    obtain ⟨hc, _⟩ := header_raw ⟨pxs.length - 1, by omega⟩
    simp only at hc
    exact ⟨_, _, rfl, by simp only [Packet.count]; omega⟩

/-! ### C7: 24-bit run-length decoding -/

/-- C7: for every sequence `ps` of well-formed 24-bit packets whose run lengths
(`(header & 0x7F) + 1` of each packet's header byte) sum exactly to `Size`,
`RGBCompressed` on the packets' bytes (whatever follows them) consumes exactly
those bytes and writes exactly `3 * Size` bytes, the concatenation of the
per-packet expansions in input order: a run-length packet `(B, G, R)` with run
length `n` expands to `n` copies of `R, G, B`, a raw packet to `R_j, G_j, B_j` for
each of its pixels in order.  `0x80, 0x10, 0x20, 0x30` yields `0x30, 0x20, 0x10`,
and header `0x01` with two groups yields the two reordered triples in order. -/
theorem C7_rgb_run_length (ps : List (Packet (Byte × Byte × Byte))) (Size : Nat)
    (hwf : ∀ pk ∈ ps, pk.WellFormed) (hsum : totalCount ps = Size)
    (extra : List Byte) (rest : Mem) :
    RGBCompressed (memOf (encodeAll bgr ps ++ extra) rest) Size
      = some ((encodeAll bgr ps).length, expandAll rgb ps) ∧
    (expandAll rgb ps).length = 3 * Size ∧
    (∀ pk ∈ ps, ∃ h tl, Packet.encode bgr pk = h :: tl ∧ (h.val &&& 0x7F) + 1 = pk.count) ∧
    (∀ n B G R, Packet.encode bgr (Packet.run n (B, G, R)) = [byteOf (0x80 ||| (n - 1)), B, G, R] ∧
      Packet.expand rgb (Packet.run n (B, G, R)) = (List.replicate n [R, G, B]).flatten) ∧
    (∀ pxs : List (Byte × Byte × Byte),
      Packet.encode bgr (Packet.raw pxs)
        = byteOf (pxs.length - 1) :: pxs.flatMap (fun px => [px.1, px.2.1, px.2.2]) ∧
      Packet.expand rgb (Packet.raw pxs) = pxs.flatMap (fun px => [px.2.2, px.2.1, px.1])) ∧
    RGBCompressed (memOf [0x80, 0x10, 0x20, 0x30] zeroMem) 1 = some (4, [0x30, 0x20, 0x10]) ∧
    RGBCompressed (memOf [0x01, 1, 2, 3, 4, 5, 6] zeroMem) 2 = some (7, [3, 2, 1, 6, 5, 4]) := by
  subst hsum
  refine ⟨RGBCompressed_packets ps hwf extra rest, ?_, ?_, ?_, ?_, by decide, by decide⟩
  · rw [expandAll_length rgb 3 (fun _ => rfl), Nat.mul_comm]
  · exact fun pk hpk => encode_header bgr pk (hwf pk hpk)
  · exact fun n B G R => ⟨rfl, rfl⟩
  · exact fun pxs => ⟨rfl, rfl⟩

/-- C7 at a run-length packet of two pixels followed by a raw packet of one. -/
theorem C7_rgb_run_length_witness :
    RGBCompressed (memOf [0x81, 1, 2, 3, 0x00, 4, 5, 6] zeroMem) 3
      = some (8, [3, 2, 1, 3, 2, 1, 6, 5, 4]) :=
  (C7_rgb_run_length [Packet.run 2 (1, 2, 3), Packet.raw [(4, 5, 6)]] 3
    (by simp [Packet.WellFormed, Packet.count]) (by decide) [] zeroMem).1

/-! ### C8: monochrome run-length decoding -/

theorem runLength_range : ∀ h : Byte, 1 ≤ (h.val &&& 0x7F) + 1 ∧ (h.val &&& 0x7F) + 1 ≤ 128 := by
  intro h
  have : h.val &&& 0x7F ≤ 0x7F := Nat.and_le_right
  omega

/-- C8: the run length `(header & 0x7F) + 1` of every header byte lies in 1..128,
and for every sequence `ps` of well-formed monochrome packets whose run lengths
sum exactly to `Size`, `MonochromeCompressed` consumes exactly the packets' bytes
and writes exactly `Size` bytes: a run-length packet with byte `v` contributes
run-length copies of `v`, a raw packet its bytes verbatim and in order.
`0x83, 0x2A` with `Size = 4` yields four bytes `0x2A`. -/
theorem C8_monochrome_run_length (ps : List (Packet Byte)) (Size : Nat)
    (hwf : ∀ pk ∈ ps, pk.WellFormed) (hsum : totalCount ps = Size)
    (extra : List Byte) (rest : Mem) :
    MonochromeCompressed (memOf (encodeAll mono ps ++ extra) rest) Size
      = some ((encodeAll mono ps).length, expandAll mono ps) ∧
    (expandAll mono ps).length = Size ∧
    (∀ h : Byte, 1 ≤ (h.val &&& 0x7F) + 1 ∧ (h.val &&& 0x7F) + 1 ≤ 128) ∧
    (∀ pk ∈ ps, ∃ h tl, Packet.encode mono pk = h :: tl ∧ (h.val &&& 0x7F) + 1 = pk.count) ∧
    (∀ n v, Packet.encode mono (Packet.run n v) = [byteOf (0x80 ||| (n - 1)), v] ∧
      Packet.expand mono (Packet.run n v) = List.replicate n v) ∧
    (∀ vs : List Byte, Packet.encode mono (Packet.raw vs) = byteOf (vs.length - 1) :: vs ∧
      Packet.expand mono (Packet.raw vs) = vs) ∧
    MonochromeCompressed (memOf [0x83, 0x2A] zeroMem) 4
      = some (2, [0x2A, 0x2A, 0x2A, 0x2A]) := by
  subst hsum
  refine ⟨MonochromeCompressed_packets ps hwf extra rest, ?_, runLength_range, ?_, ?_, ?_,
    by decide⟩
  · rw [expandAll_length mono 1 (fun _ => rfl), Nat.mul_one]
  · exact fun pk hpk => encode_header mono pk (hwf pk hpk)
  · intro n v
    refine ⟨rfl, ?_⟩
    simp only [Packet.expand, mono]
    induction n with
    | zero => rfl
    | succ n ih => simp [List.replicate_succ, ih]
  · intro vs
    simp only [Packet.encode, Packet.expand]
    have e : vs.flatMap mono = vs := by
      induction vs with
      | nil => rfl
      | cons v vs ih => simp [List.flatMap_cons, ih, mono]
    rw [e]
    exact ⟨rfl, rfl⟩

/-- C8 at a raw packet of two bytes followed by a run-length packet of three. -/
theorem C8_monochrome_run_length_witness :
    MonochromeCompressed (memOf [0x01, 7, 8, 0x82, 9] zeroMem) 5
      = some (5, [7, 8, 9, 9, 9]) :=
  (C8_monochrome_run_length [Packet.raw [7, 8], Packet.run 3 9] 5
    (by simp [Packet.WellFormed, Packet.count]) (by decide) [] zeroMem).1

/-! ### C9: the two write paths of `RGBACompressed` -/

theorem flatMap_replicate {α : Type} (f : α → List Byte) (x : α) (n : Nat) :
    (List.replicate n x).flatMap f = (List.replicate n (f x)).flatten := by
  induction n with
  | zero => rfl
  | succ n ih => simp [List.replicate_succ, ih]

/-- C9: in `RGBACompressed`, for every run length `n` in 1..128 and all pixel
bytes `B, G, R, A` (also `A ≥ 128`), the run-length packet `0x80 | (n-1), B, G, R, A`
and the raw packet `n-1` followed by `n` copies of `B, G, R, A` both produce the
same `4n` output bytes, `n` copies of `R, G, B, A`; the word written by the
run-length path, copied out bytewise, is `R, G, B, A` with the alpha byte
unmodified. -/
theorem C9_rgba_paths_agree (n : Nat) (hn : 1 ≤ n ∧ n ≤ 128) (B G R A : Byte)
    (extra : List Byte) (rest : Mem) :
    RGBACompressed (memOf ([byteOf (0x80 ||| (n - 1)), B, G, R, A] ++ extra) rest) n
      = some (5, (List.replicate n [R, G, B, A]).flatten) ∧
    RGBACompressed
        (memOf (byteOf (n - 1) :: (List.replicate n [B, G, R, A]).flatten ++ extra) rest) n
      = some (1 + 4 * n, (List.replicate n [R, G, B, A]).flatten) ∧
    ((List.replicate n [R, G, B, A]).flatten).length = 4 * n ∧
    pixBytes (packPix R.val G.val B.val A.val) = [R, G, B, A] := by
  have h1 := RGBACompressed_packets [Packet.run n (B, G, R, A)]
    (by simpa [Packet.WellFormed, Packet.count] using hn) extra rest
  have h2 := RGBACompressed_packets [Packet.raw (List.replicate n (B, G, R, A))]
    (by simpa [Packet.WellFormed, Packet.count] using hn) extra rest
  have e : ∀ (f : Byte × Byte × Byte × Byte → List Byte) (x : Byte × Byte × Byte × Byte),
      (List.replicate n x).flatMap f = (List.replicate n (f x)).flatten :=
    fun f x => flatMap_replicate f x n
  refine ⟨?_, ?_, ?_, pixBytes_packPix R G B A⟩
  · simpa [encodeAll, expandAll, totalCount, Packet.encode, Packet.expand, Packet.count,
      bgra, rgba] using h1
  · simp only [encodeAll, expandAll, totalCount, Packet.encode, Packet.expand, Packet.count,
      List.flatMap_cons, List.flatMap_nil, List.append_nil, List.map_cons, List.map_nil,
      List.sum_cons, List.sum_nil, Nat.add_zero, List.length_replicate, e, bgra, rgba] at h2
    rw [h2]
    simp [flatten_replicate_length]
    omega
  · rw [flatten_replicate_length]
    simp [Nat.mul_comm]

/-- C9 at run length 2 and the pixel `B, G, R, A = 1, 2, 3, 200`. -/
theorem C9_rgba_paths_agree_witness :
    RGBACompressed (memOf [0x81, 1, 2, 3, 200] zeroMem) 2
      = some (5, [3, 2, 1, 200, 3, 2, 1, 200]) ∧
    RGBACompressed (memOf [0x01, 1, 2, 3, 200, 1, 2, 3, 200] zeroMem) 2
      = some (9, [3, 2, 1, 200, 3, 2, 1, 200]) :=
  ⟨(C9_rgba_paths_agree 2 (by decide) 1 2 3 200 [] zeroMem).1,
    (C9_rgba_paths_agree 2 (by decide) 1 2 3 200 [] zeroMem).2.1⟩

/-! ### C10: bounds of the run-length decoders -/

/-- C10, as stated, fails: the decoders check no bounds and reject nothing.  With
`Size = 1`, `MonochromeCompressed` on `0x83, 0x2A` writes 4 bytes into an output
of 1 byte, and `RGBACompressed` on `0x81, 1, 2, 3, 4` writes 8 bytes into an
output of 4; `RGBCompressed` on the 3-byte input `0x00, 1, 2` reads 4 bytes. -/
theorem C10_rle_bounds_counterexample :
    MonochromeCompressed (memOf [0x83, 0x2A] zeroMem) 1
      = some (2, [0x2A, 0x2A, 0x2A, 0x2A]) ∧
    RGBCompressed (memOf [0x00, 1, 2] zeroMem) 1 = some (4, [0, 2, 1]) ∧
    RGBACompressed (memOf [0x81, 1, 2, 3, 4] zeroMem) 1
      = some (5, [3, 2, 1, 4, 3, 2, 1, 4]) ∧
    ¬ (∀ (inp : List Byte) (rest : Mem) (Size : Nat),
        StaysInBounds (MonochromeCompressed (memOf inp rest) Size) inp.length (Size * 1) ∧
        StaysInBounds (RGBCompressed (memOf inp rest) Size) inp.length (Size * 3) ∧
        StaysInBounds (RGBACompressed (memOf inp rest) Size) inp.length (Size * 4)) := by
  have h1 : MonochromeCompressed (memOf [0x83, 0x2A] zeroMem) 1
      = some (2, [0x2A, 0x2A, 0x2A, 0x2A]) := by decide
  refine ⟨h1, by decide, by decide, ?_⟩
  intro h
  have h2 := ((h [0x83, 0x2A] zeroMem 1).1 _ _ h1).2
  revert h2
  decide

/-- C10, amended: the decoders reject nothing, they decode every input to
completion; and on an input of `L` bytes that begins with a sequence of
well-formed packets whose run lengths sum exactly to `Size`, each decoder reads
only the packets' bytes (so only positions below `L`) and writes exactly
`Size * pixelSize` bytes (so none at a position `≥ Size * pixelSize`). -/
theorem C10_rle_bounds_on_exact_streams
    (ps8 : List (Packet Byte)) (ps24 : List (Packet (Byte × Byte × Byte)))
    (ps32 : List (Packet (Byte × Byte × Byte × Byte)))
    (h8 : ∀ pk ∈ ps8, pk.WellFormed) (h24 : ∀ pk ∈ ps24, pk.WellFormed)
    (h32 : ∀ pk ∈ ps32, pk.WellFormed) (extra : List Byte) (rest : Mem) :
    (∃ p out,
      MonochromeCompressed (memOf (encodeAll mono ps8 ++ extra) rest) (totalCount ps8)
        = some (p, out) ∧
      p ≤ (encodeAll mono ps8 ++ extra).length ∧ out.length = totalCount ps8 * 1) ∧
    (∃ p out,
      RGBCompressed (memOf (encodeAll bgr ps24 ++ extra) rest) (totalCount ps24)
        = some (p, out) ∧
      p ≤ (encodeAll bgr ps24 ++ extra).length ∧ out.length = totalCount ps24 * 3) ∧
    (∃ p out,
      RGBACompressed (memOf (encodeAll bgra ps32 ++ extra) rest) (totalCount ps32)
        = some (p, out) ∧
      p ≤ (encodeAll bgra ps32 ++ extra).length ∧ out.length = totalCount ps32 * 4) ∧
    (∀ (m : Mem) (Size : Nat),
      (MonochromeCompressed m Size).isSome = true ∧ (RGBCompressed m Size).isSome = true ∧
      (RGBACompressed m Size).isSome = true) := by
  refine ⟨⟨_, _, MonochromeCompressed_packets ps8 h8 extra rest, ?_,
      expandAll_length mono 1 (fun _ => rfl) ps8⟩,
    ⟨_, _, RGBCompressed_packets ps24 h24 extra rest, ?_,
      expandAll_length rgb 3 (fun _ => rfl) ps24⟩,
    ⟨_, _, RGBACompressed_packets ps32 h32 extra rest, ?_,
      expandAll_length rgba 4 (fun _ => rfl) ps32⟩,
    fun m Size => ⟨MonochromeCompressed_isSome m Size, RGBCompressed_isSome m Size,
      RGBACompressed_isSome m Size⟩⟩ <;>
  · rw [List.length_append]
    exact Nat.le_add_right _ _

/-- C10 amended, at one packet per decoder followed by one further input byte:
each decoder stops after the packet and fills the output exactly. -/
theorem C10_rle_bounds_on_exact_streams_witness :
    (∃ p out, MonochromeCompressed (memOf [0x83, 0x2A, 0xFF] zeroMem) 4 = some (p, out) ∧
      p ≤ 3 ∧ out.length = 4) ∧
    (∃ p out, RGBCompressed (memOf [0x00, 1, 2, 3, 0xFF] zeroMem) 1 = some (p, out) ∧
      p ≤ 5 ∧ out.length = 3) ∧
    (∃ p out, RGBACompressed (memOf [0x81, 1, 2, 3, 4, 0xFF] zeroMem) 2 = some (p, out) ∧
      p ≤ 6 ∧ out.length = 8) := by
  have hC := C10_rle_bounds_on_exact_streams [Packet.run 4 0x2A] [Packet.raw [(1, 2, 3)]]
    [Packet.run 2 (1, 2, 3, 4)] (by simp [Packet.WellFormed, Packet.count])
    (by simp [Packet.WellFormed, Packet.count]) (by simp [Packet.WellFormed, Packet.count])
    [0xFF] zeroMem
  exact ⟨hC.1, hC.2.1, hC.2.2.1⟩

/-! ### Results shared by the claims on `Load` as a whole -/

/-- The pixel switch leaves `Data` as it is for image type 0, for type 9 and for
every type outside 0, 1, 2, 3, 9, 10, 11. -/
theorem decodePixels_skip (l : Locals) (D : Mem)
    (h : l.Head.image_type ≠ 1 ∧ l.Head.image_type ≠ 2 ∧ l.Head.image_type ≠ 3 ∧
      l.Head.image_type ≠ 10 ∧ l.Head.image_type ≠ 11) :
    decodePixels l D = some D := by
  unfold decodePixels
  simp only
  split <;> first | rfl | (exfalso; omega)

theorem memTake_freshData (env : Env) (n : Nat) :
    memTake (freshData env n) n = List.replicate n 0 := by
  rw [List.eq_replicate_iff]
  refine ⟨memTake_length _ _, ?_⟩
  intro x hx
  simp only [memTake, List.mem_map, List.mem_range] at hx
  obtain ⟨p, hp, rfl⟩ := hx
  simp [freshData, hp]

/-- Whenever `new uint8_t[ImageSize]` succeeds, `ImageSize` is the product
`width * height * PixelSize`: a wrapped `int` product gives a request of `2^63`
bytes or more unless the pixel size is 0. -/
theorem ImageSize_of_alloc (env : Env) (b : List Byte)
    (hI : allocFails (readInput env b).ImageSize = false) :
    (readInput env b).ImageSize
      = (readInput env b).Head.width * (readInput env b).Head.height
          * (readInput env b).PixelSize := by
  by_cases hwh : (readInput env b).Head.width * (readInput env b).Head.height < 2 ^ 31
  · exact readInput_ImageSize env b hwh
  · have hw := readInput_width_lt env b
    have hh := readInput_height_lt env b
    have hx : (readInput env b).Head.width * (readInput env b).Head.height
        < 65536 * 65536 := Nat.mul_lt_mul'' hw hh
    have hp := readInput_PixelSize_lt env b
    have e : (readInput env b).ImageSize
        = (toSizeT (intMul (readInput env b).Head.width (readInput env b).Head.height)
            * (readInput env b).PixelSize) % 2 ^ 64 := rfl
    rcases Nat.eq_zero_or_pos (readInput env b).PixelSize with hz | hpos
    · rw [e, hz]; simp
    · exfalso
      rw [e] at hI
      simp only [allocFails, decide_eq_false_iff_not, intMul, toSizeT] at hI
      apply hI
      generalize (readInput env b).PixelSize = P at hp hpos ⊢
      generalize (readInput env b).Head.width * (readInput env b).Head.height = x at hwh hx ⊢
      have hxm : x % 2 ^ 32 = x := Nat.mod_eq_of_lt (by omega)
      rw [hxm, if_neg hwh, Nat.add_mul]
      have h1 : 2 ^ 31 * P ≤ x * P := Nat.mul_le_mul_right P (by omega)
      have h2 : x * P ≤ 2 ^ 32 * P := Nat.mul_le_mul_right P (by omega)
      have h3 : x * P < 2 ^ 32 * P := Nat.mul_lt_mul_of_pos_right (by omega) hpos
      have e2 : x * P + (2 ^ 64 - 2 ^ 32) * P
          = (2 ^ 64 - (2 ^ 32 * P - x * P)) + 2 ^ 64 * (P - 1) := by
        omega
      rw [e2, Nat.add_mul_mod_self_left, Nat.mod_eq_of_lt (by omega)]
      omega

/-- For image type 0, type 9 and every type outside 0, 1, 2, 3, 9, 10, 11:
whenever `Load` returns, it returns `true` and the output buffer consists of
`width * height * PixelSize` zero bytes. -/
theorem Load_zero_filled (env : Env) (self : TGA) (b : List Byte)
    (h : (readInput env b).Head.image_type ≠ 1 ∧ (readInput env b).Head.image_type ≠ 2 ∧
      (readInput env b).Head.image_type ≠ 3 ∧ (readInput env b).Head.image_type ≠ 10 ∧
      (readInput env b).Head.image_type ≠ 11)
    (ret : Bool) (obj : TGA) (hr : Load env self (some b) = Outcome.returned ret obj) :
    ret = true ∧
    obj.Data = List.replicate ((readInput env b).Head.width * (readInput env b).Head.height
      * (readInput env b).PixelSize) 0 ∧
    obj.Size = (readInput env b).Head.width * (readInput env b).Head.height
      * (readInput env b).PixelSize ∧
    obj.Format = formatOf (readInput env b).PixelSize self.Format := by
  rcases Load_some env self b with ⟨ht, _⟩ | ⟨_, hI, Data, hdec, hr2⟩
  · rw [ht] at hr; exact absurd hr (by simp)
  · rw [decodePixels_skip _ _ h] at hdec
    injection hdec with hdec
    subst hdec
    rw [hr2] at hr
    injection hr with h1 h2
    subst h1 h2
    refine ⟨rfl, ?_, ImageSize_of_alloc env b hI, rfl⟩
    show memTake _ _ = _
    rw [memTake_freshData, ImageSize_of_alloc env b hI]

/-- On an opened file of fewer than 20 bytes `DataSize` wraps and
`new uint8_t[DataSize]` throws. -/
theorem Load_short (env : Env) (self : TGA) (b : List Byte) (h : b.length < 20) :
    Load env self (some b) = Outcome.threw := by
  have e : (readInput env b).DataSize = (b.length + 2 ^ 64 - sizeofHeader) % 2 ^ 64 := rfl
  have hD : allocFails (readInput env b).DataSize = true := by
    rw [e, sizeofHeader]
    simp only [allocFails, decide_eq_true_eq]
    omega
  simp [Load, LoadFrom, hD]

/-! ### C11: inputs shorter than the header -/

/-- C11, as stated, fails: on the empty file (and on a 17-byte file) `Load` does
not return `false`; the call ends in the exception thrown by `new[]`. -/
theorem C11_short_input_counterexample :
    Load (Env.const 0) TGA.new (some []) = Outcome.threw ∧
    Load (Env.const 0) TGA.new (some (sampleShortType9.take 17)) = Outcome.threw ∧
    ¬ (∀ (env : Env) (self : TGA) (b : List Byte), b.length < 18 →
        ∃ obj, Load env self (some b) = Outcome.returned false obj) := by
  have h0 : Load (Env.const 0) TGA.new (some []) = Outcome.threw := by decide
  refine ⟨h0, by decide, ?_⟩
  intro h
  obtain ⟨obj, hobj⟩ := h (Env.const 0) TGA.new [] (by decide)
  rw [h0] at hobj
  exact absurd hobj (by simp)

/-- C11, amended: for every input shorter than 18 bytes (the empty one included)
`Load` returns neither `false` nor a decoded image: the call ends in the
exception thrown by `new[]`.  `Load` has no check for truncated input: it
returns `false` when the file cannot be opened and never on an opened file. -/
theorem C11_short_input_not_reported (env : Env) (self : TGA) (b : List Byte)
    (h : b.length < 18) :
    Load env self (some b) = Outcome.threw ∧
    (∀ ret obj, Load env self (some b) ≠ Outcome.returned ret obj) ∧
    Load env self none = Outcome.returned false self ∧
    (∀ (b2 : List Byte) (ret : Bool) (obj : TGA),
      Load env self (some b2) = Outcome.returned ret obj → ret = true) := by
  have ht := Load_short env self b (by omega)
  refine ⟨ht, ?_, rfl, ?_⟩
  · intro ret obj hr
    rw [ht] at hr
    exact absurd hr (by simp)
  · intro b2 ret obj hr
    exact (Load_returned env self b2 ret obj hr).1

/-- C11 amended, at a 3-byte file. -/
theorem C11_short_input_not_reported_witness :
    ([0, 0, 2] : List Byte).length < 18 ∧
    Load (Env.const 0) TGA.new (some [0, 0, 2]) = Outcome.threw :=
  ⟨by decide, (C11_short_input_not_reported (Env.const 0) TGA.new [0, 0, 2] (by decide)).1⟩

/-! ### C12: image type 0 -/

/-- C12, as stated, fails: `sample16BitNoImage` has image type 0 and a pixel size
of 2, for which `Load` sets no format; on a new object the tag stays
`Undefined`. -/
theorem C12_no_image_counterexample :
    (readInput (Env.const 0) sample16BitNoImage).Head.image_type = 0 ∧
    Load (Env.const 0) TGA.new (some sample16BitNoImage)
      = Outcome.returned true
          { Data := [0, 0], Size := 2, Width := 1, Height := 1,
            Format := ImageFormat.Undefined } ∧
    ¬ (∀ (env : Env) (self : TGA) (b : List Byte),
        (readInput env b).Head.image_type = 0 →
        ∃ obj, Load env self (some b) = Outcome.returned true obj ∧
          obj.GetData = List.replicate ((readInput env b).Head.width
            * (readInput env b).Head.height * (readInput env b).PixelSize) 0 ∧
          obj.GetFormat ≠ ImageFormat.Undefined) := by
  have hL : Load (Env.const 0) TGA.new (some sample16BitNoImage)
      = Outcome.returned true
          { Data := [0, 0], Size := 2, Width := 1, Height := 1,
            Format := ImageFormat.Undefined } := by decide
  refine ⟨by decide, hL, ?_⟩
  intro h
  obtain ⟨obj, hobj, _, hf⟩ := h (Env.const 0) TGA.new sample16BitNoImage (by decide)
  rw [hL] at hobj
  injection hobj with _ hobj
  subst hobj
  exact hf rfl

/-- C12, amended: for every input whose image-type code is 0, whenever `Load`
returns it returns `true`, the output buffer has the size
`width * height * pixelSize` with every byte 0 (whatever the pixel stream
holds), and the format tag is `Monochrome`, `RGB` or `RGBA`, hence not
`Undefined`, when the computed pixel size is 1, 3 or 4.  `Load` does return when
the file has between 20 and `2^63` bytes and `width * height < 2^31`. -/
theorem C12_no_image_zero_filled (env : Env) (self : TGA) (b : List Byte)
    (htype : (readInput env b).Head.image_type = 0) :
    (∀ ret obj, Load env self (some b) = Outcome.returned ret obj →
      ret = true ∧
      obj.GetData = List.replicate ((readInput env b).Head.width
        * (readInput env b).Head.height * (readInput env b).PixelSize) 0 ∧
      obj.GetSize = (readInput env b).Head.width * (readInput env b).Head.height
        * (readInput env b).PixelSize ∧
      ((readInput env b).PixelSize = 1 → obj.GetFormat = ImageFormat.Monochrome) ∧
      ((readInput env b).PixelSize = 3 → obj.GetFormat = ImageFormat.RGB) ∧
      ((readInput env b).PixelSize = 4 → obj.GetFormat = ImageFormat.RGBA) ∧
      ((readInput env b).PixelSize = 1 ∨ (readInput env b).PixelSize = 3 ∨
        (readInput env b).PixelSize = 4 → obj.GetFormat ≠ ImageFormat.Undefined)) ∧
    (20 ≤ b.length → b.length < 2 ^ 63 →
      (readInput env b).Head.width * (readInput env b).Head.height < 2 ^ 31 →
      ∃ obj, Load env self (some b) = Outcome.returned true obj) := by
  refine ⟨?_, fun h20 hlt hwh => ?_⟩
  · intro ret obj hr
    obtain ⟨h1, h2, h3, h4⟩ := Load_zero_filled env self b
      (by rw [htype]; decide) ret obj hr
    simp only [TGA.GetData, TGA.GetSize, TGA.GetFormat]
    refine ⟨h1, h2, h3, ?_, ?_, ?_, ?_⟩
    · intro hp; rw [h4, hp]; rfl
    · intro hp; rw [h4, hp]; rfl
    · intro hp; rw [h4, hp]; rfl
    · intro hp
      rw [h4]
      rcases hp with hp | hp | hp <;> rw [hp] <;> simp [formatOf]
  · obtain ⟨Data, _, hr⟩ := Load_returns env self b h20 hlt hwh
    exact ⟨_, hr⟩

/-- C12 amended, at `sampleNoImage24`: `Load` returns three zero bytes tagged
`RGB`, not the bytes 5 and 6 that follow the header. -/
theorem C12_no_image_zero_filled_witness :
    (readInput (Env.const 0) sampleNoImage24).Head.image_type = 0 ∧
    ∃ obj, Load (Env.const 0) TGA.new (some sampleNoImage24) = Outcome.returned true obj ∧
      obj.GetData = [0, 0, 0] ∧ obj.GetFormat = ImageFormat.RGB := by
  have hC := C12_no_image_zero_filled (Env.const 0) TGA.new sampleNoImage24 (by decide)
  obtain ⟨obj, hobj⟩ := hC.2 (by decide) (by decide) (by decide)
  obtain ⟨_, hd, _, _, hf, _⟩ := hC.1 true obj hobj
  exact ⟨by decide, obj, hobj, hd.trans (by decide), hf (by decide)⟩

/-! ### C13: image type 9 and unknown image types -/

/-- C13 at the failing input `sampleShortType9` (a header alone, image type 9):
`DataSize = FileSize - sizeof(Header) = 18 - 20` wraps to `2^64 - 2` and `Load`
ends in the exception thrown by `new uint8_t[DataSize]` instead of returning
`true`.  On every input of these image types on which `Load` does return, it
returns `true` with a buffer of `width * height * pixelSize` zero bytes. -/
theorem C13_unknown_type_short_file :
    (readInput (Env.const 0) sampleShortType9).Head.image_type = 9 ∧
    (readInput (Env.const 0) sampleShortType9).DataSize = 2 ^ 64 - 2 ∧
    Load (Env.const 0) TGA.new (some sampleShortType9) = Outcome.threw ∧
    (∀ (env : Env) (self : TGA) (b : List Byte),
      ((readInput env b).Head.image_type = 9 ∨
        ((readInput env b).Head.image_type ≠ 0 ∧ (readInput env b).Head.image_type ≠ 1 ∧
          (readInput env b).Head.image_type ≠ 2 ∧ (readInput env b).Head.image_type ≠ 3 ∧
          (readInput env b).Head.image_type ≠ 9 ∧ (readInput env b).Head.image_type ≠ 10 ∧
          (readInput env b).Head.image_type ≠ 11)) →
      ∀ ret obj, Load env self (some b) = Outcome.returned ret obj →
        ret = true ∧
        obj.GetData = List.replicate ((readInput env b).Head.width
          * (readInput env b).Head.height * (readInput env b).PixelSize) 0) := by
  refine ⟨by decide, by decide, by decide, ?_⟩
  intro env self b h ret obj hr
  have h2 : (readInput env b).Head.image_type ≠ 1 ∧ (readInput env b).Head.image_type ≠ 2 ∧
      (readInput env b).Head.image_type ≠ 3 ∧ (readInput env b).Head.image_type ≠ 10 ∧
      (readInput env b).Head.image_type ≠ 11 := by
    rcases h with h | h
    · rw [h]; decide
    · exact ⟨h.2.1, h.2.2.1, h.2.2.2.1, h.2.2.2.2.2.1, h.2.2.2.2.2.2⟩
  obtain ⟨h1, hd, _, _⟩ := Load_zero_filled env self b h2 ret obj hr
  exact ⟨h1, hd⟩

/-! ### C14: paletted decoding without a colour map -/

/-- When the colour-map flag is not 1, the storage at `ColorMap` is never
written: it is as `new[]` returned it. -/
theorem readInput_ColorMap_unread (env : Env) (b : List Byte)
    (h : (readInput env b).Head.color_map_type ≠ 1) :
    (readInput env b).ColorMap = env.ColorMap := by
  have e : (readInput env b).ColorMap = (colorMapRead env b).2 := rfl
  have hH : (readInput env b).Head = (headerRead env b).2 := rfl
  rw [hH] at h
  rw [e, colorMapRead, if_neg h]

theorem decodePixels_paletted8 (l : Locals) (D : Mem) (ht : l.Head.image_type = 1)
    (hb : l.Head.bits = 8) (hp : l.PixelSize = 3) :
    decodePixels l D
      = some (memOf (RGBPaletted (index8 l.Buffer) l.ColorMap
          (toSizeT (intMul l.Head.width l.Head.height))) D) := by
  unfold decodePixels
  simp only [ht, hb, hp, if_true]

/-- C14 at the failing input `samplePalettedNoFlag` (colour-map flag 0, image
type 1, colour-map length 1): the pixel size is 3, so `Load` calls `RGBPaletted`,
although the colour map was never read from the file; the output bytes are
whatever the storage at `ColorMap` held: `3, 2, 1` when it held `1, 2, 3`, and
`7, 7, 7` when it held 7 everywhere.  In general, with flag 0, type 1, 8 bits and
pixel size 3 the pixel switch writes `RGBPaletted` of the unwritten storage. -/
theorem C14_paletted_without_flag :
    (readInput (Env.withColorMap zeroMem) samplePalettedNoFlag).Head.color_map_type = 0 ∧
    (readInput (Env.withColorMap zeroMem) samplePalettedNoFlag).Head.image_type = 1 ∧
    (readInput (Env.withColorMap zeroMem) samplePalettedNoFlag).PixelSize = 3 ∧
    Load (Env.withColorMap (memOf [1, 2, 3] zeroMem)) TGA.new (some samplePalettedNoFlag)
      = Outcome.returned true
          { Data := [3, 2, 1], Size := 3, Width := 1, Height := 1,
            Format := ImageFormat.RGB } ∧
    Load (Env.withColorMap (fun _ => 7)) TGA.new (some samplePalettedNoFlag)
      = Outcome.returned true
          { Data := [7, 7, 7], Size := 3, Width := 1, Height := 1,
            Format := ImageFormat.RGB } ∧
    (∀ (env : Env) (b : List Byte) (D : Mem),
      (readInput env b).Head.color_map_type = 0 → (readInput env b).Head.image_type = 1 →
      (readInput env b).Head.bits = 8 → (readInput env b).PixelSize = 3 →
      decodePixels (readInput env b) D
        = some (memOf (RGBPaletted (index8 (readInput env b).Buffer) env.ColorMap
            (toSizeT (intMul (readInput env b).Head.width (readInput env b).Head.height)))
              D)) := by
  refine ⟨by decide, by decide, by decide, by decide, by decide, ?_⟩
  intro env b D hc ht hb hp
  rw [decodePixels_paletted8 _ _ ht hb hp,
    readInput_ColorMap_unread env b (by rw [hc]; decide)]

/-! ### C15: determinism -/

/-- C15 at the failing input `sampleExactTruecolor`: `Load` reads one pixel byte
into `Buffer` (`DataSize = 21 - 20 = 1`) and decodes three, so two of the output
bytes are whatever the storage at `Buffer` held: `7, 7, 10` in one environment
and `9, 9, 10` in another.  On `sample16BitNoImage` (pixel size 2) the format tag
is the one the object had before the call. -/
theorem C15_output_depends_on_storage :
    Load (Env.withBuffer (fun _ => 7)) TGA.new (some sampleExactTruecolor)
      = Outcome.returned true
          { Data := [7, 7, 10], Size := 3, Width := 1, Height := 1,
            Format := ImageFormat.RGB } ∧
    Load (Env.withBuffer (fun _ => 9)) TGA.new (some sampleExactTruecolor)
      = Outcome.returned true
          { Data := [9, 9, 10], Size := 3, Width := 1, Height := 1,
            Format := ImageFormat.RGB } ∧
    Load (Env.const 0) TGA.new (some sample16BitNoImage)
      = Outcome.returned true
          { Data := [0, 0], Size := 2, Width := 1, Height := 1,
            Format := ImageFormat.Undefined } ∧
    Load (Env.const 0)
        { Data := [], Size := 0, Width := 0, Height := 0, Format := ImageFormat.RGBA }
        (some sample16BitNoImage)
      = Outcome.returned true
          { Data := [0, 0], Size := 2, Width := 1, Height := 1,
            Format := ImageFormat.RGBA } ∧
    ¬ (∀ (env1 env2 : Env) (self1 self2 : TGA) (b : List Byte),
        Load env1 self1 (some b) = Load env2 self2 (some b)) := by
  have h7 : Load (Env.withBuffer (fun _ => 7)) TGA.new (some sampleExactTruecolor)
      = Outcome.returned true
          { Data := [7, 7, 10], Size := 3, Width := 1, Height := 1,
            Format := ImageFormat.RGB } := by decide
  have h9 : Load (Env.withBuffer (fun _ => 9)) TGA.new (some sampleExactTruecolor)
      = Outcome.returned true
          { Data := [9, 9, 10], Size := 3, Width := 1, Height := 1,
            Format := ImageFormat.RGB } := by decide
  refine ⟨h7, h9, by decide, by decide, ?_⟩
  intro h
  have h2 := h (Env.withBuffer (fun _ => 7)) (Env.withBuffer (fun _ => 9)) TGA.new TGA.new
    sampleExactTruecolor
  rw [h7, h9] at h2
  revert h2
  decide

/-! ### C16: termination of the packet loops -/

/-- The packet loop and its counters: with fuel for the pixels left, the loop
finishes; it writes `e` bytes per pixel counted; if it runs at all, the pixel
counter ends between `Size` and `Size + 127` and the number of packets processed
is at most the number of pixels that were left. -/
theorem rle_stats (k e : Nat) (eRun eRaw : Mem → Nat → List Byte)
    (hRun : ∀ m q, (eRun m q).length = e) (hRaw : ∀ m q, (eRaw m q).length = e)
    (m : Mem) (Size : Nat) (fuel i p n : Nat) (out : List Byte) (hf : Size ≤ fuel + i) :
    ∃ n2 i2 p2 out2,
      rleCount k m Size fuel i p n = some (n2, i2, p2) ∧
      rleLoop k eRun eRaw m Size fuel i p out = some (p2, out2) ∧
      out2.length = out.length + (i2 - i) * e ∧ i ≤ i2 ∧
      (Size ≤ i → n2 = n ∧ i2 = i) ∧
      (i < Size → Size ≤ i2 ∧ i2 ≤ Size + 127 ∧ n2 + i ≤ n + Size) := by
  induction fuel generalizing i p n out with
  | zero =>
    have hi : ¬ i < Size := by omega
    exact ⟨n, i, p, out, by simp [rleCount, hi], by simp [rleLoop, hi], by simp,
      Nat.le_refl _, fun _ => ⟨rfl, rfl⟩, fun h => absurd h hi⟩
  | succ fuel ih =>
    by_cases hi : i < Size
    · obtain ⟨hc1, hc2⟩ := runLength_range (m p)
      by_cases hb : (m p).val &&& 0x80 ≠ 0
      · obtain ⟨n2, i2, p2, out2, h1, h2, h3, h4, h5, h6⟩ :=
          ih (i + (((m p).val &&& 0x7F) + 1)) (p + 1 + k) (n + 1)
            (out ++ (List.replicate (((m p).val &&& 0x7F) + 1) (eRun m (p + 1))).flatten)
            (by omega)
        refine ⟨n2, i2, p2, out2, ?_, ?_, ?_, by omega, fun h => absurd hi (by omega), ?_⟩
        · rw [rleCount, if_pos hi]
          simp only
          rw [if_pos hb]
          exact h1
        · rw [rleLoop, if_pos hi]
          simp only
          rw [if_pos hb]
          exact h2
        · rw [h3, List.length_append, flatten_replicate_length, hRun]
          have e1 : (i2 - i) * e = (((m p).val &&& 0x7F) + 1) * e
              + (i2 - (i + (((m p).val &&& 0x7F) + 1))) * e := by
            rw [← Nat.add_mul]
            congr 1
            omega
          rw [e1, Nat.add_assoc]
        · intro _
          by_cases h7 : i + (((m p).val &&& 0x7F) + 1) < Size
          · have := h6 h7
            omega
          · have := h5 (by omega)
            omega
      · obtain ⟨n2, i2, p2, out2, h1, h2, h3, h4, h5, h6⟩ :=
          ih (i + (((m p).val &&& 0x7F) + 1)) (p + 1 + k * (((m p).val &&& 0x7F) + 1)) (n + 1)
            (out ++ (List.range (((m p).val &&& 0x7F) + 1)).flatMap
              (fun j => eRaw m (p + 1 + k * j)))
            (by omega)
        refine ⟨n2, i2, p2, out2, ?_, ?_, ?_, by omega, fun h => absurd hi (by omega), ?_⟩
        · rw [rleCount, if_pos hi]
          simp only
          rw [if_neg hb]
          exact h1
        · rw [rleLoop, if_pos hi]
          simp only
          rw [if_neg hb]
          exact h2
        · rw [h3, List.length_append,
            chunks_length (fun j => eRaw m (p + 1 + k * j)) e (fun j => hRaw m _)]
          have e1 : (i2 - i) * e = (((m p).val &&& 0x7F) + 1) * e
              + (i2 - (i + (((m p).val &&& 0x7F) + 1))) * e := by
            rw [← Nat.add_mul]
            congr 1
            omega
          rw [e1, Nat.add_assoc]
        · intro _
          by_cases h7 : i + (((m p).val &&& 0x7F) + 1) < Size
          · have := h6 h7
            omega
          · have := h5 (by omega)
            omega
    · have hS : Size ≤ i := by omega
      exact ⟨n, i, p, out, by simp [rleCount, hi], by simp [rleLoop, hi], by simp,
        Nat.le_refl _, fun _ => ⟨rfl, rfl⟩, fun h => absurd h hi⟩

theorem toSizeT_intMul_le (w h : Nat) (hw : w < 65536) (hh : h < 65536) :
    toSizeT (intMul w h) + 128 ≤ 2 ^ 64 := by
  have hx : w * h ≤ 65535 * 65535 := Nat.mul_le_mul (by omega) (by omega)
  unfold toSizeT intMul
  generalize w * h = x at hx
  have hxm : x % 2 ^ 32 = x := Nat.mod_eq_of_lt (by omega)
  rw [hxm]
  split <;> omega

theorem loop_stats_start (k e : Nat) (eRun eRaw : Mem → Nat → List Byte)
    (hRun : ∀ m q, (eRun m q).length = e) (hRaw : ∀ m q, (eRaw m q).length = e)
    (m : Mem) (Size : Nat) :
    ∃ packets pixels p out,
      rleLoop k eRun eRaw m Size Size 0 0 [] = some (p, out) ∧
      rleCount k m Size Size 0 0 0 = some (packets, pixels, p) ∧
      packets ≤ Size ∧ Size ≤ pixels ∧ pixels ≤ Size + 127 ∧ out.length = pixels * e := by
  obtain ⟨n2, i2, p2, out2, h1, h2, h3, _, h5, h6⟩ :=
    rle_stats k e eRun eRaw hRun hRaw m Size Size 0 0 0 [] (by omega)
  refine ⟨n2, i2, p2, out2, h2, h1, ?_, ?_, ?_, by simpa using h3⟩
  · rcases Nat.eq_zero_or_pos Size with hz | hz
    · have := h5 (by omega); omega
    · have := h6 hz; omega
  · rcases Nat.eq_zero_or_pos Size with hz | hz
    · omega
    · have := h6 hz; omega
  · rcases Nat.eq_zero_or_pos Size with hz | hz
    · have := h5 (by omega); omega
    · have := h6 hz; omega

/-- C16: for every pixel count `Size` and every input storage, the packet loops
of `MonochromeCompressed`, `RGBCompressed` and `RGBACompressed` terminate: each
iteration advances the pixel counter by `(header & 0x7F) + 1`, which is between 1
and 128, at most `Size` packets are processed, and the number of pixels written
is at least `Size` and at most `Size + 127` (the output has that many pixels of
1, 3 and 4 bytes).  The pixel counts `Load` passes leave room for the counter:
`Size + 128 ≤ 2^64`. -/
theorem C16_packet_loops_terminate (m : Mem) (Size : Nat) :
    (∀ h : Byte, 1 ≤ (h.val &&& 0x7F) + 1 ∧ (h.val &&& 0x7F) + 1 ≤ 128) ∧
    (∃ packets pixels p out,
      MonochromeCompressed m Size = some (p, out) ∧
      rleCount 1 m Size Size 0 0 0 = some (packets, pixels, p) ∧
      packets ≤ Size ∧ Size ≤ pixels ∧ pixels ≤ Size + 127 ∧ out.length = pixels * 1) ∧
    (∃ packets pixels p out,
      RGBCompressed m Size = some (p, out) ∧
      rleCount 3 m Size Size 0 0 0 = some (packets, pixels, p) ∧
      packets ≤ Size ∧ Size ≤ pixels ∧ pixels ≤ Size + 127 ∧ out.length = pixels * 3) ∧
    (∃ packets pixels p out,
      RGBACompressed m Size = some (p, out) ∧
      rleCount 4 m Size Size 0 0 0 = some (packets, pixels, p) ∧
      packets ≤ Size ∧ Size ≤ pixels ∧ pixels ≤ Size + 127 ∧ out.length = pixels * 4) ∧
    (∀ w h : Nat, w < 65536 → h < 65536 → toSizeT (intMul w h) + 128 ≤ 2 ^ 64) := by
  refine ⟨runLength_range, ?_, ?_, ?_, toSizeT_intMul_le⟩
  · rw [MonochromeCompressed, MonochromeCompressedLoop_eq]
    exact loop_stats_start 1 1 emit8 emit8 (fun _ _ => rfl) (fun _ _ => rfl) m Size
  · rw [RGBCompressed, RGBCompressedLoop_eq]
    exact loop_stats_start 3 3 emit24 emit24 (fun _ _ => rfl) (fun _ _ => rfl) m Size
  · rw [RGBACompressed, RGBACompressedLoop_eq]
    exact loop_stats_start 4 4 emitPix32 emit32 (fun _ _ => rfl) (fun _ _ => rfl) m Size

/-- C16 at `Size = 3` on the monochrome stream `0x81, 5, 0x01, 6, 7`: two packets
of two pixels each are processed, four pixels are written. -/
theorem C16_packet_loops_terminate_witness :
    ∃ packets pixels p out,
      MonochromeCompressed (memOf [0x81, 5, 0x01, 6, 7] zeroMem) 3 = some (p, out) ∧
      rleCount 1 (memOf [0x81, 5, 0x01, 6, 7] zeroMem) 3 3 0 0 0
        = some (packets, pixels, p) ∧
      packets ≤ 3 ∧ 3 ≤ pixels ∧ pixels ≤ 3 + 127 ∧ out.length = pixels * 1 :=
  (C16_packet_loops_terminate (memOf [0x81, 5, 0x01, 6, 7] zeroMem) 3).2.1

/-! ### C17: the indices of the swap loop -/

/-- C17 at the failing input `sampleType2EightBits` (image type 2 with 8 bits):
the branch runs for every value of `bits`, the pixel size is 1 and `ImageSize` is
1, and the swap loop reaches `i = 0` and exchanges `Data[0]` with `Data[2]`, two
bytes past the array: the returned byte is what the storage after `Data` held (7
or 9), not the pixel byte 5.  The loop itself always finishes. -/
theorem C17_swap_out_of_bounds :
    (readInput (Env.withData zeroMem) sampleType2EightBits).Head.image_type = 2 ∧
    (readInput (Env.withData zeroMem) sampleType2EightBits).Head.bits = 8 ∧
    (readInput (Env.withData zeroMem) sampleType2EightBits).PixelSize = 1 ∧
    (readInput (Env.withData zeroMem) sampleType2EightBits).ImageSize = 1 ∧
    swapIndices 1 1 1 0 = [0] ∧ ¬ (0 + 2 < 1) ∧
    Load (Env.withData (fun _ => 7)) TGA.new (some sampleType2EightBits)
      = Outcome.returned true
          { Data := [7], Size := 1, Width := 1, Height := 1,
            Format := ImageFormat.Monochrome } ∧
    Load (Env.withData (fun _ => 9)) TGA.new (some sampleType2EightBits)
      = Outcome.returned true
          { Data := [9], Size := 1, Width := 1, Height := 1,
            Format := ImageFormat.Monochrome } ∧
    ¬ (∀ (env : Env) (b : List Byte), (readInput env b).Head.image_type = 2 →
        ∀ i ∈ swapIndices (readInput env b).PixelSize (readInput env b).ImageSize
          (readInput env b).ImageSize 0, i + 2 < (readInput env b).ImageSize) ∧
    (∀ (env : Env) (b : List Byte) (D : Mem),
      (swapLoop (readInput env b).PixelSize (readInput env b).ImageSize
        (readInput env b).ImageSize 0 D).isSome = true) := by
  refine ⟨?_, ?_, ?_, ?_, ?_, ?_, ?_, ?_, ?_, ?_⟩
  iterate 8 decide
  · intro h
    have h2 := h (Env.withData zeroMem) sampleType2EightBits (by decide) 0 (by decide)
    revert h2
    decide
  · intro env b D
    apply swapLoop_isSome
    · rcases Nat.eq_zero_or_pos (readInput env b).PixelSize with hz | hz
      · right; rw [readInput_PixelSize_zero env b hz]
      · left; exact hz
    · omega

/-! ### C18: the 32-bit product -/

/-- C18 at the failing input `sampleHugeDimensions` (65535 x 65535 pixels of 8
bits): the `int` product `Head.width * Head.height` wraps to the bit pattern
`4294836225` (the value `-131071`), which as a `size_t` is `2^64 - 131071`, not
`65535 * 65535`; `ImageSize` is that value and `new uint8_t[ImageSize]` throws.
The smallest square that wraps is 46341 x 46341.  Below `2^31` pixels the values
are the mathematical products. -/
theorem C18_int_product_wraps :
    intMul 65535 65535 = 4294836225 ∧
    toSizeT (intMul 65535 65535) = 2 ^ 64 - 131071 ∧
    toSizeT (intMul 65535 65535) ≠ 65535 * 65535 ∧
    toSizeT (intMul 46341 46341) ≠ 46341 * 46341 ∧
    (readInput (Env.const 0) sampleHugeDimensions).Head.width = 65535 ∧
    (readInput (Env.const 0) sampleHugeDimensions).Head.height = 65535 ∧
    (readInput (Env.const 0) sampleHugeDimensions).PixelSize = 1 ∧
    (readInput (Env.const 0) sampleHugeDimensions).ImageSize = 2 ^ 64 - 131071 ∧
    (readInput (Env.const 0) sampleHugeDimensions).ImageSize ≠ 65535 * 65535 * 1 ∧
    Load (Env.const 0) TGA.new (some sampleHugeDimensions) = Outcome.threw ∧
    (∀ w h : Nat, w * h < 2 ^ 31 → toSizeT (intMul w h) = w * h) := by
  refine ⟨?_, ?_, ?_, ?_, ?_, ?_, ?_, ?_, ?_, ?_, toSizeT_intMul⟩ <;> decide

/-! ### C19: the size of the input buffer -/

/-- C19 at the failing input `sampleExactTruecolor` (the 18-byte header and exactly
the `1 * 1 * 3` pixel bytes `10, 20, 30`): `DataSize = 21 - sizeof(Header) = 1` is
less than `ImageSize = 3`, only the byte `10` is read into `Buffer`, and the
decoder reads three bytes from it; the output `7, 7, 10` carries what the storage
at `Buffer` held.  On `sampleEmptyMonochrome` (the header alone, no pixels)
`DataSize = 18 - 20` wraps to `2^64 - 2` and `new uint8_t[DataSize]` throws. -/
theorem C19_buffer_shorter_than_image :
    sampleExactTruecolor.length = 18 + 1 * 1 * 3 ∧
    sizeofHeader = 20 ∧
    (readInput (Env.withBuffer (fun _ => 7)) sampleExactTruecolor).Head.image_type = 2 ∧
    (readInput (Env.withBuffer (fun _ => 7)) sampleExactTruecolor).DataSize = 1 ∧
    (readInput (Env.withBuffer (fun _ => 7)) sampleExactTruecolor).ImageSize = 3 ∧
    (readInput (Env.withBuffer (fun _ => 7)) sampleExactTruecolor).BufferPos = 18 ∧
    pixelStream (Env.withBuffer (fun _ => 7)) sampleExactTruecolor = [10] ∧
    memTake (readInput (Env.withBuffer (fun _ => 7)) sampleExactTruecolor).Buffer 3
      = [10, 7, 7] ∧
    Load (Env.withBuffer (fun _ => 7)) TGA.new (some sampleExactTruecolor)
      = Outcome.returned true
          { Data := [7, 7, 10], Size := 3, Width := 1, Height := 1,
            Format := ImageFormat.RGB } ∧
    sampleEmptyMonochrome.length = 18 + 0 * 0 * 1 ∧
    (readInput (Env.const 0) sampleEmptyMonochrome).Head.image_type = 3 ∧
    (readInput (Env.const 0) sampleEmptyMonochrome).DataSize = 2 ^ 64 - 2 ∧
    Load (Env.const 0) TGA.new (some sampleEmptyMonochrome) = Outcome.threw := by
  decide

/-! ### C20: bytes written and bytes allocated -/

/-- C20 at the failing input `sampleRleWithColorMap` (image type 10, 24 bits, one
pixel, colour-map length 1 with 32-bit entries): the pixel size is 4 and
`ImageSize` is 4, but `RGBCompressed` writes 3 bytes; the buffer `30, 20, 10, 0` is
tagged `RGBA`.  At `sampleRleNarrowColorMap` (8-bit entries) the pixel size and
`ImageSize` are 1 and `RGBCompressed` writes 3 bytes, two of them past the array. -/
theorem C20_bytes_written_differ :
    (readInput (Env.const 0) sampleRleWithColorMap).Head.image_type = 10 ∧
    (readInput (Env.const 0) sampleRleWithColorMap).Head.bits = 24 ∧
    (readInput (Env.const 0) sampleRleWithColorMap).Head.color_map_length = 1 ∧
    (readInput (Env.const 0) sampleRleWithColorMap).PixelSize = 4 ∧
    (readInput (Env.const 0) sampleRleWithColorMap).ImageSize = 4 ∧
    RGBCompressed (readInput (Env.const 0) sampleRleWithColorMap).Buffer 1
      = some (4, [30, 20, 10]) ∧
    Load (Env.const 0) TGA.new (some sampleRleWithColorMap)
      = Outcome.returned true
          { Data := [30, 20, 10, 0], Size := 4, Width := 1, Height := 1,
            Format := ImageFormat.RGBA } ∧
    (readInput (Env.const 0) sampleRleNarrowColorMap).Head.image_type = 10 ∧
    (readInput (Env.const 0) sampleRleNarrowColorMap).Head.bits = 24 ∧
    (readInput (Env.const 0) sampleRleNarrowColorMap).PixelSize = 1 ∧
    (readInput (Env.const 0) sampleRleNarrowColorMap).ImageSize = 1 ∧
    RGBCompressed (readInput (Env.const 0) sampleRleNarrowColorMap).Buffer 1
      = some (4, [30, 20, 10]) ∧
    Load (Env.const 0) TGA.new (some sampleRleNarrowColorMap)
      = Outcome.returned true
          { Data := [30], Size := 1, Width := 1, Height := 1,
            Format := ImageFormat.Monochrome } := by
  decide

end tga
